import Mathlib

/-!
# Verification of the OpenCog-style cognitive core (AtomSpace / ECAN / PLN / CogServer)

A shallow embedding of the core of the repository:

* `src/opencog/atomspace/Atom.js`      — `TruthValue`, `AttentionValue`, `Atom`
* `src/opencog/atomspace/AtomSpace.js` — the graph store
* `src/opencog/ecan/ECAN.js`           — the attention-allocation engine
* `src/opencog/pln/PLN.js`             — the probabilistic inference engine
* `src/opencog/cogserver/CogServer.js` — job execution timing (`executeJob`)

Modelling conventions:
* JavaScript numbers are modelled as `ℚ` (all quantities handled by the core
  stay inside exact decimal arithmetic on the inputs considered here).
* The `id → Atom` `Map` is modelled as an insertion-ordered list of atoms with
  pairwise-distinct ids (a JS `Map` cannot hold two entries with one key);
  `Map`/`Set` iteration order is insertion order, which the list preserves.
* Atom-to-atom object references (outgoing sets, focus members) are modelled by
  atom ids; JS object identity (`===`) between atoms coincides with id equality
  because every constructed atom gets a fresh unique id.
* The `typeIndex`, `nameIndex` and `incomingIndex` of `AtomSpace` are updated in
  lockstep with the primary map by `addAtom`/`removeAtom`; the embedding models
  the queries that read them (`getAtomsByType`, `getNodeByName`,
  `getLinkByOutgoing`, `getIncoming`) by computing directly from the primary
  map, which coincides with the maintained indexes on every state the
  operations can reach.  Only nodes with a *truthy* (non-null, non-empty) name
  are ever entered in the name index, which the queries reproduce.
* `Math.random()` draws are modelled by an oracle `rng : ℕ → ℚ` together with a
  draw counter threaded through the cycle, so the randomized ECAN phases are
  deterministic functions of the oracle and every theorem quantifies over it.
-/

namespace MelonCog

/-- `TruthValue` (Atom.js): strength and confidence, clamped to `[0,1]` on
construction and on `setStrength`/`setConfidence`. -/
structure TruthValue where
  strength : ℚ
  confidence : ℚ
deriving Repr, DecidableEq

/-- Clamp a rational into `[0, 1]`, as the `TruthValue` constructor does. -/
def clamp01 (x : ℚ) : ℚ := max 0 (min 1 x)

/-- `new TruthValue(s, c)`: both components clamped into `[0,1]`. -/
def TruthValue.make (s c : ℚ) : TruthValue := ⟨clamp01 s, clamp01 c⟩

/-- `new TruthValue()`: the default truth value `(0.5, 0.0)`. -/
def TruthValue.default : TruthValue := ⟨1/2, 0⟩

/-- `AttentionValue` (Atom.js): STI, LTI and the VLTI flag.  `setSTI` stores
its argument without clamping. -/
structure AttentionValue where
  sti : ℚ
  lti : ℚ
  vlti : Bool
deriving Repr, DecidableEq

/-- `new AttentionValue()`: defaults `(0, 0, false)`. -/
def AttentionValue.default : AttentionValue := ⟨0, 0, false⟩

/-- An atom (Atom.js): id, type tag, optional name, outgoing ids, truth value
and attention value.  The per-object incoming set mirrors the space's incoming
index and is not modelled separately (see the header comment). -/
structure Atom where
  id : ℕ
  type : String
  name : Option String
  outgoing : List ℕ
  tv : TruthValue
  av : AttentionValue
deriving Repr, DecidableEq

/-- `isNode()`: an atom with no outgoing atoms. -/
def Atom.isNode (a : Atom) : Bool := a.outgoing.isEmpty

/-- `isLink()`: an atom with at least one outgoing atom. -/
def Atom.isLink (a : Atom) : Bool := !a.outgoing.isEmpty

/-- Replace an atom's STI (`av.setSTI`; no clamping happens here). -/
def Atom.withSTI (a : Atom) (v : ℚ) : Atom :=
  { a with av := { a.av with sti := v } }

/-- JS truthiness of a node name: `null`/`undefined` and the empty string are
falsy, so such names are never entered in the name index. -/
def nameTruthy : Option String → Bool
  | none => false
  | some s => !(s == "")

/-- The graph store (AtomSpace.js).  `atoms` models the `id → Atom` map in
insertion order, `attentionalFocus` the focus `Set` in insertion order, `size`
the maintained size counter and `nextId` the id generator (replacing the
`uuidv4` calls of the reference; only freshness/uniqueness of ids matters). -/
structure AtomSpace where
  atoms : List Atom
  attentionalFocus : List ℕ
  size : ℕ
  nextId : ℕ
deriving Repr, DecidableEq

/-- `new AtomSpace()`. -/
def AtomSpace.empty : AtomSpace := ⟨[], [], 0, 0⟩

/-- `getAtom(atomId)`. -/
def AtomSpace.get (s : AtomSpace) (atomId : ℕ) : Option Atom :=
  s.atoms.find? (fun a => a.id == atomId)

/-- `hasAtom(atomId)`. -/
def AtomSpace.hasAtom (s : AtomSpace) (atomId : ℕ) : Bool :=
  (s.get atomId).isSome

/-- `getAllAtoms()` (insertion order of the map). -/
def AtomSpace.getAllAtoms (s : AtomSpace) : List Atom := s.atoms

/-- `getSize()`. -/
def AtomSpace.getSize (s : AtomSpace) : ℕ := s.size

/-- `getAtomsByType(type)`: the type-index entry in insertion order. -/
def AtomSpace.getAtomsByType (s : AtomSpace) (ty : String) : List Atom :=
  s.atoms.filter (fun a => a.type == ty)

/-- `getNodeByName(type, name)`: scans the name-index entry for `name` (only
truthy-named nodes are indexed) and returns the first atom of the wanted type. -/
def AtomSpace.getNodeByName (s : AtomSpace) (ty : String) (nm : Option String) :
    Option Atom :=
  if nameTruthy nm then
    s.atoms.find? (fun a => a.isNode && nameTruthy a.name && a.name == nm && a.type == ty)
  else
    none

/-- `getLinkByOutgoing(type, outgoing)`: scans the type-index entry and returns
the first link whose outgoing array equals `outg` element-wise (JS compares the
outgoing atom objects with `===`, i.e. by id). -/
def AtomSpace.getLinkByOutgoing (s : AtomSpace) (ty : String) (outg : List ℕ) :
    Option Atom :=
  s.atoms.find? (fun a => a.type == ty && a.isLink && a.outgoing == outg)

/-- `getIncoming(atomId)`: the incoming-index entry, i.e. the stored atoms whose
outgoing sequence references `atomId`. -/
def AtomSpace.getIncoming (s : AtomSpace) (atomId : ℕ) : List Atom :=
  s.atoms.filter (fun a => atomId ∈ a.outgoing)

/-- Apply `f` to the stored atom with id `atomId` (mutation of the object held
by the map; at most one entry has the id). -/
def AtomSpace.updateAtom (s : AtomSpace) (atomId : ℕ) (f : Atom → Atom) : AtomSpace :=
  { s with atoms := s.atoms.map (fun a => if a.id == atomId then f a else a) }

/-- `addAtom(atom)`: returns the existing entry when the id is already present,
otherwise appends the atom and bumps the size counter (incoming-index wiring is
implicit, see the header comment). -/
def AtomSpace.addAtom (s : AtomSpace) (a : Atom) : Atom × AtomSpace :=
  match s.get a.id with
  | some existing => (existing, s)
  | none => (a, { s with atoms := s.atoms ++ [a], size := s.size + 1 })

/-- `addNode(type, name, tv)`: structural de-duplication through the name
index; a supplied truth value overwrites on re-add; otherwise a fresh node is
constructed (default truth value `(0.5, 0)`) and inserted. -/
def AtomSpace.addNode (s : AtomSpace) (ty : String) (nm : Option String)
    (tv? : Option TruthValue) : Atom × AtomSpace :=
  match s.getNodeByName ty nm with
  | some existing =>
    match tv? with
    | some tv =>
      let updated := { existing with tv := tv }
      (updated, s.updateAtom existing.id (fun a => { a with tv := tv }))
    | none => (existing, s)
  | none =>
    let a : Atom :=
      { id := s.nextId, type := ty, name := nm, outgoing := [],
        tv := tv?.getD TruthValue.default, av := AttentionValue.default }
    ({ s with nextId := s.nextId + 1 } : AtomSpace).addAtom a

/-- `addLink(type, outgoing, tv)`: structural de-duplication through
`getLinkByOutgoing`; a supplied truth value overwrites on re-add; otherwise a
fresh link is constructed and inserted. -/
def AtomSpace.addLink (s : AtomSpace) (ty : String) (outg : List ℕ)
    (tv? : Option TruthValue) : Atom × AtomSpace :=
  match s.getLinkByOutgoing ty outg with
  | some existing =>
    match tv? with
    | some tv =>
      let updated := { existing with tv := tv }
      (updated, s.updateAtom existing.id (fun a => { a with tv := tv }))
    | none => (existing, s)
  | none =>
    let a : Atom :=
      { id := s.nextId, type := ty, name := none, outgoing := outg,
        tv := tv?.getD TruthValue.default, av := AttentionValue.default }
    ({ s with nextId := s.nextId + 1 } : AtomSpace).addAtom a

/-- `removeAtom(atomId)`: returns whether the atom existed; deletes it from the
focus set, all indexes and the primary map.  It unwires incoming-set
back-pointers but does **not** touch the outgoing sequences of other links. -/
def AtomSpace.removeAtom (s : AtomSpace) (atomId : ℕ) : Bool × AtomSpace :=
  match s.get atomId with
  | none => (false, s)
  | some _ =>
    (true,
      { s with
        attentionalFocus := s.attentionalFocus.filter (fun i => i ≠ atomId),
        atoms := s.atoms.filter (fun a => a.id ≠ atomId),
        size := s.size - 1 })

/-- `addToAttentionalFocus(atomId)`: only live atoms enter the focus set. -/
def AtomSpace.addToAttentionalFocus (s : AtomSpace) (atomId : ℕ) : Bool × AtomSpace :=
  if s.hasAtom atomId then
    (true,
      { s with
        attentionalFocus :=
          if atomId ∈ s.attentionalFocus then s.attentionalFocus
          else s.attentionalFocus ++ [atomId] })
  else (false, s)

/-- `removeFromAttentionalFocus(atomId)`. -/
def AtomSpace.removeFromAttentionalFocus (s : AtomSpace) (atomId : ℕ) : AtomSpace :=
  { s with attentionalFocus := s.attentionalFocus.filter (fun i => i ≠ atomId) }

/-- `getAttentionalFocus()`: focus ids resolved against the map, dropping any
id that does not resolve (the `filter(atom => atom)` of the reference). -/
def AtomSpace.getAttentionalFocus (s : AtomSpace) : List Atom :=
  s.attentionalFocus.filterMap s.get

/-- Well-formedness of a store state, maintained by all operations: stored ids
are pairwise distinct (a JS `Map` has unique keys) and below the id generator. -/
def AtomSpace.WF (s : AtomSpace) : Prop :=
  (s.atoms.map Atom.id).Nodup ∧ ∀ a ∈ s.atoms, a.id < s.nextId

instance (s : AtomSpace) : Decidable s.WF := by
  unfold AtomSpace.WF
  exact instDecidableAnd

/-- Focus liveness, maintained by all operations: every focus member resolves
to a stored atom. -/
def AtomSpace.FocusLive (s : AtomSpace) : Prop :=
  ∀ i ∈ s.attentionalFocus, (s.get i).isSome

instance (s : AtomSpace) : Decidable s.FocusLive := by
  unfold AtomSpace.FocusLive
  exact List.decidableBAll _ s.attentionalFocus

/-! ## Atom types (AtomTypes.js)

Only the string tags the embedded code paths mention. -/

/-- `ATOM_TYPES.CONCEPT_NODE`. -/
def CONCEPT_NODE : String := "ConceptNode"

/-- `ATOM_TYPES.PREDICATE_NODE`. -/
def PREDICATE_NODE : String := "PredicateNode"

/-- `ATOM_TYPES.GOAL_NODE`. -/
def GOAL_NODE : String := "GoalNode"

/-- `ATOM_TYPES.LIST_LINK`. -/
def LIST_LINK : String := "ListLink"

/-- `ATOM_TYPES.IMPLICATION_LINK`. -/
def IMPLICATION_LINK : String := "ImplicationLink"

/-- `ATOM_TYPES.EVALUATION_LINK`. -/
def EVALUATION_LINK : String := "EvaluationLink"

/-- `ATOM_TYPES.HEBBIAN_LINK`. -/
def HEBBIAN_LINK : String := "HebbianLink"

/-! ## PLN (PLN.js) -/

/-- PLN configuration (`this.config` of PLN.js).  `maxInferenceDepth` is
reserved and unused by the engine; `defaultConfidence`/`defaultStrength` are
unused by the embedded code paths. -/
structure PLNConfig where
  minConfidence : ℚ
  strengthThreshold : ℚ
  revisionInflationFactor : ℚ
deriving Repr, DecidableEq

/-- The default PLN configuration (no constructor options). -/
def PLNConfig.default : PLNConfig := ⟨1/100, 1/10, 6/5⟩

/-- The five registered rules, in `Map` insertion order. -/
inductive RuleName where
  | deduction
  | induction
  | abduction
  | revision
  | modusPonens
deriving Repr, DecidableEq

/-- The iteration order of the rule registry. -/
def ruleOrder : List RuleName :=
  [.deduction, .induction, .abduction, .revision, .modusPonens]

/-- Each rule's premise pattern (the two premise types); the revision rule is
registered without a pattern. -/
def rulePattern : RuleName → Option (String × String)
  | .deduction => some (IMPLICATION_LINK, IMPLICATION_LINK)
  | .induction => some (IMPLICATION_LINK, IMPLICATION_LINK)
  | .abduction => some (IMPLICATION_LINK, IMPLICATION_LINK)
  | .revision => none
  | .modusPonens => some (IMPLICATION_LINK, EVALUATION_LINK)

/-- `matchesPattern(atom, pattern)`: the registered patterns always carry a
type, so the check is type equality. -/
def matchesPatternType (a : Atom) (ty : String) : Bool := a.type == ty

/-- The ordered pairs `(l[i], l[j])` with `i < j`, in the nested-loop order of
`findRuleCandidates` (outer index ascending, inner index ascending). -/
def upperPairs : List Atom → List (Atom × Atom)
  | [] => []
  | x :: xs => xs.map (fun y => (x, y)) ++ upperPairs xs

/-- `findRuleCandidates(rule)`: enumerates the pairs `(atoms[i], atoms[j])`
with `j > i` whose types match the premise pattern; rules without a pattern
get no candidates.  Candidates are recorded by id (the JS candidate objects
are live references, so premise truth values are read at application time). -/
def findRuleCandidates (s : AtomSpace) (r : RuleName) : List (ℕ × ℕ) :=
  match rulePattern r with
  | none => []
  | some (p1, p2) =>
    (upperPairs s.getAllAtoms).filterMap (fun pr =>
      if matchesPatternType pr.1 p1 && matchesPatternType pr.2 p2 then
        some (pr.1.id, pr.2.id)
      else none)

/-- `atomsAreEquivalent(atom1, atom2)`: id equality, or equality of type and
name (JS `null === null` holds, so two same-typed links are equivalent). -/
def atomsAreEquivalent (a b : Atom) : Bool :=
  a.id == b.id || (a.type == b.type && a.name == b.name)

/-- `calculateDeductionTV(tv1, tv2)`: strength `s₁·s₂`, confidence
`min(c₁·c₂·(1 − s₁ + s₁·s₂), 1)`, then the constructor clamp. -/
def calculateDeductionTV (tv1 tv2 : TruthValue) : TruthValue :=
  let s1 := tv1.strength
  let c1 := tv1.confidence
  let s2 := tv2.strength
  let c2 := tv2.confidence
  TruthValue.make (s1 * s2) (min (c1 * c2 * (1 - s1 + s1 * s2)) 1)

/-- `calculateInductionTV(tv1, tv2)`: strength `s₂`, confidence `c₁·c₂·s₁`. -/
def calculateInductionTV (tv1 tv2 : TruthValue) : TruthValue :=
  TruthValue.make tv2.strength
    (min (tv1.confidence * tv2.confidence * tv1.strength) 1)

/-- `calculateAbductionTV(tv1, tv2)`: strength `s₂·s₁`, confidence `c₁·c₂`. -/
def calculateAbductionTV (tv1 tv2 : TruthValue) : TruthValue :=
  TruthValue.make (tv2.strength * tv1.strength)
    (min (tv1.confidence * tv2.confidence) 1)

/-- `calculateModusPonensTV(tv1, tv2)`: strength `s₁·s₂`, confidence `c₁·c₂`. -/
def calculateModusPonensTV (tv1 tv2 : TruthValue) : TruthValue :=
  TruthValue.make (tv1.strength * tv2.strength)
    (min (tv1.confidence * tv2.confidence) 1)

/-- A rule application result (`{rule, conclusion, atom, truthValue}`; the
`premises` field is not needed by any embedded consumer). -/
structure InferenceResult where
  rule : RuleName
  conclusion : Atom
  truthValue : TruthValue
deriving Repr, DecidableEq

/-- `evaluatesAsTrue(evaluationLink, atom)`: the link must be a binary
evaluation whose argument is equivalent to `atom` and whose truth value has
strength `> 0.5` and confidence `> minConfidence`.  The argument object is
resolved in the store (outgoing references are live objects in JS). -/
def evaluatesAsTrue (cfg : PLNConfig) (s : AtomSpace) (evalLink : Atom)
    (atom : Atom) : Bool :=
  if evalLink.type == EVALUATION_LINK then
    match evalLink.outgoing with
    | [_, argumentId] =>
      match s.get argumentId with
      | some argument =>
        atomsAreEquivalent argument atom &&
        decide (evalLink.tv.strength > 1/2) &&
        decide (evalLink.tv.confidence > cfg.minConfidence)
      | none => false
    | _ => false
  else false

/-- `applyDeduction(candidate)`: premises `A→B`, `B→C` with an equivalent
middle term produce `A→C` with the deduction truth value, added to the store
immediately through `addLink` (overwriting any previous truth value on a
structurally identical link). -/
def applyDeduction (s : AtomSpace) (cand : ℕ × ℕ) :
    AtomSpace × Option InferenceResult :=
  match s.get cand.1, s.get cand.2 with
  | some premise1, some premise2 =>
    match premise1.outgoing, premise2.outgoing with
    | [a, b1], [b2, c] =>
      match s.get b1, s.get b2 with
      | some atomB1, some atomB2 =>
        if atomsAreEquivalent atomB1 atomB2 then
          let conclusionTV := calculateDeductionTV premise1.tv premise2.tv
          let r := s.addLink IMPLICATION_LINK [a, c] (some conclusionTV)
          (r.2, some ⟨.deduction, r.1, conclusionTV⟩)
        else (s, none)
      | _, _ => (s, none)
    | _, _ => (s, none)
  | _, _ => (s, none)

/-- `applyInduction(candidate)`: premises `A→B`, `A→C` with equivalent first
terms produce `C→B` with the induction truth value. -/
def applyInduction (s : AtomSpace) (cand : ℕ × ℕ) :
    AtomSpace × Option InferenceResult :=
  match s.get cand.1, s.get cand.2 with
  | some premise1, some premise2 =>
    match premise1.outgoing, premise2.outgoing with
    | [a1, b], [a2, c] =>
      match s.get a1, s.get a2 with
      | some atomA1, some atomA2 =>
        if atomsAreEquivalent atomA1 atomA2 then
          let conclusionTV := calculateInductionTV premise1.tv premise2.tv
          let r := s.addLink IMPLICATION_LINK [c, b] (some conclusionTV)
          (r.2, some ⟨.induction, r.1, conclusionTV⟩)
        else (s, none)
      | _, _ => (s, none)
    | _, _ => (s, none)
  | _, _ => (s, none)

/-- `applyAbduction(candidate)`: premises `A→B`, `C→B` with equivalent second
terms produce `A→C` with the abduction truth value. -/
def applyAbduction (s : AtomSpace) (cand : ℕ × ℕ) :
    AtomSpace × Option InferenceResult :=
  match s.get cand.1, s.get cand.2 with
  | some premise1, some premise2 =>
    match premise1.outgoing, premise2.outgoing with
    | [a, b1], [c, b2] =>
      match s.get b1, s.get b2 with
      | some atomB1, some atomB2 =>
        if atomsAreEquivalent atomB1 atomB2 then
          let conclusionTV := calculateAbductionTV premise1.tv premise2.tv
          let r := s.addLink IMPLICATION_LINK [a, c] (some conclusionTV)
          (r.2, some ⟨.abduction, r.1, conclusionTV⟩)
        else (s, none)
      | _, _ => (s, none)
    | _, _ => (s, none)
  | _, _ => (s, none)

/-- `applyModusPonens(candidate)`: premise `A→B` together with an evaluation
link asserting `A` produce `EvaluationLink(true, B)`. -/
def applyModusPonens (cfg : PLNConfig) (s : AtomSpace) (cand : ℕ × ℕ) :
    AtomSpace × Option InferenceResult :=
  match s.get cand.1, s.get cand.2 with
  | some premise1, some premise2 =>
    match premise1.outgoing with
    | [a1, b] =>
      match s.get a1 with
      | some atomA1 =>
        if evaluatesAsTrue cfg s premise2 atomA1 then
          let conclusionTV := calculateModusPonensTV premise1.tv premise2.tv
          let rTrue := s.addNode PREDICATE_NODE (some "true") none
          let r := rTrue.2.addLink EVALUATION_LINK [rTrue.1.id, b] (some conclusionTV)
          (r.2, some ⟨.modusPonens, r.1, conclusionTV⟩)
        else (s, none)
      | none => (s, none)
    | _ => (s, none)
  | _, _ => (s, none)

/-- Dispatch a rule's `apply` on a candidate.  `applyRevision` expects
candidates carrying explicit truth-value lists, which `findRuleCandidates`
never produces (the rule has no pattern), so the revision branch is
unreachable through `applyRule` and contributes nothing. -/
def ruleApply (cfg : PLNConfig) (r : RuleName) (s : AtomSpace) (cand : ℕ × ℕ) :
    AtomSpace × Option InferenceResult :=
  match r with
  | .deduction => applyDeduction s cand
  | .induction => applyInduction s cand
  | .abduction => applyAbduction s cand
  | .revision => (s, none)
  | .modusPonens => applyModusPonens cfg s cand

/-- `isValidInference(result)`: the produced truth value must reach both the
confidence and the strength thresholds. -/
def isValidInference (cfg : PLNConfig) (res : InferenceResult) : Bool :=
  decide (res.truthValue.confidence ≥ cfg.minConfidence) &&
  decide (res.truthValue.strength ≥ cfg.strengthThreshold)

/-- `applyRule(rule)`: candidates are enumerated once up front; each valid
result is recorded and its (already stored) conclusion re-added via `addAtom`,
a no-op.  Invalid results are dropped from the result list, but any store
mutation made inside the rule's `apply` stays. -/
def applyRule (cfg : PLNConfig) (s : AtomSpace) (r : RuleName) :
    AtomSpace × List InferenceResult :=
  (findRuleCandidates s r).foldl
    (fun acc cand =>
      let step := ruleApply cfg r acc.1 cand
      match step.2 with
      | some result =>
        if isValidInference cfg result then
          ((step.1.addAtom result.conclusion).2, acc.2 ++ [result])
        else (step.1, acc.2)
      | none => (step.1, acc.2))
    (s, [])

/-- One inference iteration: one pass over all rules in registry order,
returning the new store and the number of inferences recorded. -/
def runIteration (cfg : PLNConfig) (s : AtomSpace) : AtomSpace × ℕ :=
  ruleOrder.foldl
    (fun acc r =>
      let step := applyRule cfg acc.1 r
      (step.1, acc.2 + step.2.length))
    (s, 0)

/-- `performInference(maxIterations)`: repeat iterations, stopping early after
an iteration that records zero inferences; returns the final store, the number
of iterations run and the total inference count. -/
def performInference (cfg : PLNConfig) : ℕ → AtomSpace → AtomSpace × ℕ × ℕ
  | 0, s => (s, 0, 0)
  | n + 1, s =>
    let step := runIteration cfg s
    if step.2 = 0 then (step.1, 1, 0)
    else
      let rest := performInference cfg n step.1
      (rest.1, rest.2.1 + 1, rest.2.2 + step.2)

/-! ## ECAN (ECAN.js) -/

/-- ECAN configuration (`this.config` of ECAN.js) with the constructor
defaults. -/
structure ECANConfig where
  maxAF : ℕ
  minSTI : ℚ
  maxSTI : ℚ
  stimulusAmount : ℚ
  decayRate : ℚ
  spreadProbability : ℚ
  totalSTI : ℚ
  totalLTI : ℚ
  rentAmount : ℚ
  hebbianLearningRate : ℚ
  diffusionRate : ℚ
deriving Repr, DecidableEq

/-- The default ECAN configuration (no constructor options). -/
def ECANConfig.default : ECANConfig :=
  { maxAF := 100, minSTI := -1000, maxSTI := 1000, stimulusAmount := 10,
    decayRate := 1/100, spreadProbability := 1/10, totalSTI := 10000,
    totalLTI := 10000, rentAmount := 1, hebbianLearningRate := 1/10,
    diffusionRate := 1/5 }

/-- Mutable ECAN state: the shared store, the STI/LTI pools, the cycle counter
and the statistics the cycle updates. -/
structure ECANState where
  space : AtomSpace
  pool : ℚ
  ltiPool : ℚ
  cycle : ℕ
  cyclesRun : ℕ
  totalStimuli : ℕ
  averageAFSize : ℚ
  importanceSpread : ℚ
deriving Repr, DecidableEq

/-- A fresh ECAN instance over a store (`new ECAN(atomSpace)`). -/
def ECANState.init (cfg : ECANConfig) (space : AtomSpace) : ECANState :=
  { space := space, pool := cfg.totalSTI, ltiPool := cfg.totalLTI, cycle := 0,
    cyclesRun := 0, totalStimuli := 0, averageAFSize := 0,
    importanceSpread := 0 }

/-- `stimulateAtom(atomId, amount)`: `amount || stimulusAmount` makes both a
missing and a `0` amount fall back to the configured default; the new STI is
clamped at `maxSTI` from above only, and the pool is decremented (clamped at
0). -/
def stimulateAtom (cfg : ECANConfig) (st : ECANState) (atomId : ℕ)
    (amount : Option ℚ) : Bool × ECANState :=
  match st.space.get atomId with
  | none => (false, st)
  | some atom =>
    let stimulus :=
      match amount with
      | none => cfg.stimulusAmount
      | some x => if x = 0 then cfg.stimulusAmount else x
    let newSTI := min (atom.av.sti + stimulus) cfg.maxSTI
    (true,
      { st with
        space := st.space.updateAtom atomId (fun a => a.withSTI newSTI),
        pool := max 0 (st.pool - stimulus),
        totalStimuli := st.totalStimuli + 1 })

/-- `collectRent()`: every focus atom's STI drops by `rentAmount`, clamped at
`minSTI` from below; the rent is credited to the pool unconditionally. -/
def collectRent (cfg : ECANConfig) (st : ECANState) : ECANState :=
  st.space.getAttentionalFocus.foldl
    (fun acc atom =>
      let newSTI := max (atom.av.sti - cfg.rentAmount) cfg.minSTI
      { acc with
        space := acc.space.updateAtom atom.id (fun a => a.withSTI newSTI),
        pool := acc.pool + cfg.rentAmount })
    st

/-- `applySTIDecay()`: one pass over all atoms; each atom with `STI > 0` loses
`STI * decayRate` (clamped at 0 from below) and the loss is credited to the
pool; atoms with `STI ≤ 0` are untouched. -/
def applySTIDecay (cfg : ECANConfig) (st : ECANState) : ECANState :=
  let run := st.space.getAllAtoms.foldl
    (fun (acc : List Atom × ℚ) atom =>
      if atom.av.sti > 0 then
        let decay := atom.av.sti * cfg.decayRate
        (acc.1 ++ [atom.withSTI (max (atom.av.sti - decay) 0)], acc.2 + decay)
      else (acc.1 ++ [atom], acc.2))
    ([], st.pool)
  { st with space := { st.space with atoms := run.1 }, pool := run.2 }

/-- The neighbour list of `spreadFromAtom`: a `Set` seeded with the incoming
atoms and, for links, the outgoing atoms, in insertion order. -/
def connectedIds (s : AtomSpace) (atom : Atom) : List ℕ :=
  (((s.getIncoming atom.id).map Atom.id) ++
      (if atom.isLink then atom.outgoing else [])).foldl
    (fun acc i => if i ∈ acc then acc else acc ++ [i]) []

/-- `spreadFromAtom(atom)`: spread `STI * diffusionRate` (skipped below 1)
over the neighbours; each neighbour receives `amount / |neighbours|` with
probability `spreadProbability` (receiver clamped at `maxSTI`), and the source
finally loses the total actually offered.  A neighbour whose id no longer
resolves still counts towards the total (JS mutates the dead object), but the
store is unchanged for it.  Returns the new store, the next draw index and the
total spread. -/
def spreadFromAtom (cfg : ECANConfig) (rng : ℕ → ℚ) (s : AtomSpace) (k : ℕ)
    (atomId : ℕ) : AtomSpace × ℕ × ℚ :=
  match s.get atomId with
  | none => (s, k, 0)
  | some atom =>
    let currentSTI := atom.av.sti
    let spreadAmount := currentSTI * cfg.diffusionRate
    if spreadAmount < 1 then (s, k, 0)
    else
      let connected := connectedIds s atom
      if connected.length = 0 then (s, k, 0)
      else
        let amountPerAtom := spreadAmount / connected.length
        let run := connected.foldl
          (fun (acc : AtomSpace × ℕ × ℚ) cid =>
            if rng acc.2.1 < cfg.spreadProbability then
              let space :=
                match acc.1.get cid with
                | some connectedAtom =>
                  acc.1.updateAtom cid (fun a =>
                    a.withSTI (min (connectedAtom.av.sti + amountPerAtom) cfg.maxSTI))
                | none => acc.1
              (space, acc.2.1 + 1, acc.2.2 + amountPerAtom)
            else (acc.1, acc.2.1 + 1, acc.2.2))
          (s, k, 0)
        (run.1.updateAtom atomId (fun a => a.withSTI (currentSTI - run.2.2)),
          run.2.1, run.2.2)

/-- `spreadImportance()`: every focus atom whose current STI exceeds
`2 * minSTI` spreads; the per-cycle total lands in the statistics. -/
def spreadImportance (cfg : ECANConfig) (rng : ℕ → ℚ) (st : ECANState) (k : ℕ) :
    ECANState × ℕ :=
  let focusIds := st.space.getAttentionalFocus.map Atom.id
  let run := focusIds.foldl
    (fun (acc : AtomSpace × ℕ × ℚ) fid =>
      match acc.1.get fid with
      | some atom =>
        if atom.av.sti > cfg.minSTI * 2 then
          let step := spreadFromAtom cfg rng acc.1 acc.2.1 fid
          (step.1, step.2.1, acc.2.2 + step.2.2)
        else acc
      | none => acc)
    (st.space, k, 0)
  ({ st with space := run.1, importanceSpread := run.2.2 }, run.2.1)

/-- `updateAttentionalFocus()`: clear the focus, then insert the top `maxAF`
atoms with `STI ≥ minSTI`, sorted by STI descending (JS `sort` is stable). -/
def updateAttentionalFocus (cfg : ECANConfig) (st : ECANState) : ECANState :=
  let space := st.space.getAttentionalFocus.foldl
    (fun sp atom => sp.removeFromAttentionalFocus atom.id) st.space
  let sortedAtoms :=
    ((space.getAllAtoms.filter (fun a => decide (a.av.sti ≥ cfg.minSTI))).insertionSort
      (fun a b => b.av.sti ≤ a.av.sti)).take cfg.maxAF
  { st with
    space := sortedAtoms.foldl (fun sp atom => (sp.addToAttentionalFocus atom.id).2) space }

/-- `applyForgetting()`: candidates are the atoms with `LTI ≤ 0`, `VLTI`
unset and `STI < 2 * minSTI`; each is removed with probability `0.1`. -/
def applyForgetting (cfg : ECANConfig) (rng : ℕ → ℚ) (st : ECANState) (k : ℕ) :
    ECANState × ℕ :=
  let forgetThreshold := cfg.minSTI * 2
  let atomsToForget := st.space.getAllAtoms.filter
    (fun a =>
      !(decide (a.av.lti > 0) || a.av.vlti) && decide (a.av.sti < forgetThreshold))
  atomsToForget.foldl
    (fun (acc : ECANState × ℕ) atom =>
      if rng acc.2 < 1/10 then
        ({ acc.1 with space := (acc.1.space.removeAtom atom.id).2 }, acc.2 + 1)
      else (acc.1, acc.2 + 1))
    (st, k)

/-- `updateStatistics()`: running average of the focus size. -/
def updateStatistics (st : ECANState) : ECANState :=
  let af := st.space.getAttentionalFocus
  { st with
    averageAFSize :=
      (st.averageAFSize * ((st.cycle : ℚ) - 1) + af.length) / (st.cycle : ℚ) }

/-- `runCycle()`: the six phases in order, with the random draws threaded
through the oracle index. -/
def runCycle (cfg : ECANConfig) (rng : ℕ → ℚ) (st : ECANState) (k : ℕ) :
    ECANState × ℕ :=
  let st := { st with cycle := st.cycle + 1, cyclesRun := st.cyclesRun + 1 }
  let st := collectRent cfg st
  let st := applySTIDecay cfg st
  let sprd := spreadImportance cfg rng st k
  let st := updateAttentionalFocus cfg sprd.1
  let forg := applyForgetting cfg rng st sprd.2
  (updateStatistics forg.1, forg.2)

/-- `findHebbianLink(atom1, atom2)`: the first stored Hebbian link whose two
outgoing atoms are `(a, b)` or `(b, a)` (JS compares objects by `===`). -/
def findHebbianLink (s : AtomSpace) (id1 id2 : ℕ) : Option Atom :=
  (s.getAtomsByType HEBBIAN_LINK).find?
    (fun link =>
      (link.outgoing.get? 0 == some id1 && link.outgoing.get? 1 == some id2) ||
      (link.outgoing.get? 0 == some id2 && link.outgoing.get? 1 == some id1))

/-- `performHebbianLearning(atom1Id, atom2Id)`: ensure a Hebbian link between
the two atoms (created with truth value `(0.1, 0.1)` when missing), then raise
its strength by `hebbianLearningRate` and its confidence by a tenth of that,
both clamped at 1. -/
def performHebbianLearning (cfg : ECANConfig) (st : ECANState) (id1 id2 : ℕ) :
    Bool × ECANState :=
  match st.space.get id1, st.space.get id2 with
  | some _, some _ =>
    let found :=
      match findHebbianLink st.space id1 id2 with
      | some l => (l, st.space)
      | none => st.space.addLink HEBBIAN_LINK [id1, id2]
          (some (TruthValue.make (1/10) (1/10)))
    let tv := found.1.tv
    let newStrength := min (tv.strength + cfg.hebbianLearningRate) 1
    let newConfidence := min (tv.confidence + cfg.hebbianLearningRate * (1/10)) 1
    (true,
      { st with
        space := found.2.updateAtom found.1.id
          (fun a => { a with tv := TruthValue.make newStrength newConfidence }) })
  | _, _ => (false, st)

/-! ## CogServer (CogServer.js): the job-execution timing path

`executeJob` races the plugin body against a `setTimeout` of the hard-coded
`SAFE_TIMEOUT` constant (not the job's `options.timeout`).  The race is
modelled by comparing the time at which the plugin settles with the timer's
delay: the timer wins (and rejects with `"Job timed out"`) exactly when the
plugin has not settled within `SAFE_TIMEOUT` milliseconds.  Only the job
record's transitions are modelled; queue bookkeeping and events are not needed
by the claims. -/

/-- The job options relevant to execution (`scheduleJob`): the configured
timeout in milliseconds and the retry budget. -/
structure JobOptions where
  timeout : ℕ
  maxRetries : ℕ
deriving Repr, DecidableEq

/-- Job lifecycle states. -/
inductive JobStatus where
  | queued
  | running
  | completed
  | failed
  | cancelled
deriving Repr, DecidableEq

/-- The job record fields touched by `executeJob`. -/
structure Job where
  options : JobOptions
  status : JobStatus
  retryCount : ℕ
  error : Option String
deriving Repr, DecidableEq

/-- The fixed `SAFE_TIMEOUT` constant of `executeJob` (milliseconds). -/
def SAFE_TIMEOUT : ℕ := 30000

/-- Abstraction of one plugin execution: the time (ms after the job starts) at
which its promise settles, and how it settles. -/
structure PluginRun where
  settleTime : ℕ
  result : Except String Unit
deriving Repr

/-- `executeJob(job)`: mark the job running, race the plugin against the
`SAFE_TIMEOUT` timer, then complete, retry or fail.  The race's deadline is
the constant `SAFE_TIMEOUT`, not `job.options.timeout`. -/
def executeJob (job : Job) (run : PluginRun) : Job :=
  let job := { job with status := JobStatus.running }
  let raceOutcome : Except String Unit :=
    if run.settleTime > SAFE_TIMEOUT then Except.error "Job timed out"
    else run.result
  match raceOutcome with
  | Except.ok _ => { job with status := JobStatus.completed }
  | Except.error e =>
    if job.retryCount < job.options.maxRetries then
      { job with retryCount := job.retryCount + 1, status := JobStatus.queued,
                 error := some e }
    else
      { job with status := JobStatus.failed, error := some e }

/-! ## Concrete scenarios used by the claims -/

/-- Scenario S1: concept nodes `A, B, C` (ids 0, 1, 2), then
`ImplicationLink(A,B)` with `(0.9, 0.8)` (id 3) and `ImplicationLink(B,C)`
with `(0.7, 0.6)` (id 4). -/
def s1Space : AtomSpace :=
  let rA := AtomSpace.empty.addNode CONCEPT_NODE (some "A") none
  let rB := rA.2.addNode CONCEPT_NODE (some "B") none
  let rC := rB.2.addNode CONCEPT_NODE (some "C") none
  let r1 := rC.2.addLink IMPLICATION_LINK [rA.1.id, rB.1.id]
    (some (TruthValue.make (9/10) (4/5)))
  let r2 := r1.2.addLink IMPLICATION_LINK [rB.1.id, rC.1.id]
    (some (TruthValue.make (7/10) (3/5)))
  r2.2

/-- Like S1, but the premises are inserted in the other order: first
`ImplicationLink(B,C)` (id 3), then `ImplicationLink(A,B)` (id 4). -/
def s1SwappedSpace : AtomSpace :=
  let rA := AtomSpace.empty.addNode CONCEPT_NODE (some "A") none
  let rB := rA.2.addNode CONCEPT_NODE (some "B") none
  let rC := rB.2.addNode CONCEPT_NODE (some "C") none
  let r1 := rC.2.addLink IMPLICATION_LINK [rB.1.id, rC.1.id]
    (some (TruthValue.make (7/10) (3/5)))
  let r2 := r1.2.addLink IMPLICATION_LINK [rA.1.id, rB.1.id]
    (some (TruthValue.make (9/10) (4/5)))
  r2.2

/-- Premises whose deduction truth value fails the strength threshold:
`ImplicationLink(A,B)` with `(0.5, 0.5)` and `ImplicationLink(B,C)` with
`(0.1, 0.5)` (deduction gives strength `0.05 < 0.1`). -/
def belowThresholdSpace : AtomSpace :=
  let rA := AtomSpace.empty.addNode CONCEPT_NODE (some "A") none
  let rB := rA.2.addNode CONCEPT_NODE (some "B") none
  let rC := rB.2.addNode CONCEPT_NODE (some "C") none
  let r1 := rC.2.addLink IMPLICATION_LINK [rA.1.id, rB.1.id]
    (some (TruthValue.make (1/2) (1/2)))
  let r2 := r1.2.addLink IMPLICATION_LINK [rB.1.id, rC.1.id]
    (some (TruthValue.make (1/10) (1/2)))
  r2.2

/-- Nodes `A, B` and `ListLink(A, B)` (S4's setup). -/
def listLinkSpace : AtomSpace :=
  let rA := AtomSpace.empty.addNode CONCEPT_NODE (some "A") none
  let rB := rA.2.addNode CONCEPT_NODE (some "B") none
  (rB.2.addLink LIST_LINK [rA.1.id, rB.1.id] none).2

/-- A one-atom store (concept node `A`, id 0) wrapped in a fresh default ECAN
state. -/
def oneAtomState : ECANState :=
  ECANState.init ECANConfig.default
    (AtomSpace.empty.addNode CONCEPT_NODE (some "A") none).2

/-- `oneAtomState` after stimulating the atom to STI 5. -/
def fiveSTIState : ECANState :=
  (stimulateAtom ECANConfig.default oneAtomState 0 (some 5)).2

/-- The STI-bounds invariant of §3: every stored atom's STI lies within
`[minSTI, maxSTI]`. -/
def STIBounds (cfg : ECANConfig) (s : AtomSpace) : Prop :=
  ∀ a ∈ s.atoms, cfg.minSTI ≤ a.av.sti ∧ a.av.sti ≤ cfg.maxSTI

instance (cfg : ECANConfig) (s : AtomSpace) : Decidable (STIBounds cfg s) := by
  unfold STIBounds
  exact List.decidableBAll _ s.atoms

end MelonCog

unseal Rat.mul Rat.inv Rat.add Rat.sub

namespace MelonCog

/-!
## Claim theorems

The batteries `Rat` arithmetic definitions are restored to semireducible
above so that closed statements about the embedded operations evaluate by
`decide`.
-/

/-- **C1, counterexample.**  Scenario S1 (premises `A→B` `(0.9, 0.8)` and
`B→C` `(0.7, 0.6)`): after one full PLN iteration the link `A→C` exists, but
its truth value is `(0.567, 0.2018304)` — the abduction rule runs after
deduction in the same iteration and overwrites the deduction value via the
structural-de-duplication path — not `(0.63, 0.3504)` as claimed. -/
theorem C1_deduction_iteration_counterexample :
    ((runIteration PLNConfig.default s1Space).1.getLinkByOutgoing
        IMPLICATION_LINK [0, 2]).map Atom.tv
      = some ⟨567/1000, 15768/78125⟩ ∧
    ((runIteration PLNConfig.default s1Space).1.getLinkByOutgoing
        IMPLICATION_LINK [0, 2]).map Atom.tv
      ≠ some ⟨63/100, 219/625⟩ := by
  decide

/-- **C3.**  Threshold gating does not protect the graph: on premises `A→B`
`(0.5, 0.5)` and `B→C` `(0.1, 0.5)` the deduction truth value `(0.05, 0.1375)`
fails the strength threshold `0.1`, so the result list is empty — yet the
conclusion edge `A→C` (absent beforehand) is in the graph afterwards with
exactly that failing truth value, because `applyDeduction` calls `addLink`
before `isValidInference` is consulted. -/
theorem C3_threshold_gating_code_bug :
    belowThresholdSpace.getLinkByOutgoing IMPLICATION_LINK [0, 2] = none ∧
    (applyRule PLNConfig.default belowThresholdSpace RuleName.deduction).2 = [] ∧
    ((applyRule PLNConfig.default belowThresholdSpace
        RuleName.deduction).1.getLinkByOutgoing IMPLICATION_LINK [0, 2]).map Atom.tv
      = some ⟨1/20, 11/80⟩ ∧
    ¬ ((1/20 : ℚ) ≥ PLNConfig.default.strengthThreshold) := by
  decide

/-- **C4, counterexample.**  `add_node(ConceptNode, null)` twice on an empty
graph returns two *different* atoms (ids 0 and 1) and the second call grows
the graph from size 1 to size 2: nodes with a falsy (null/empty) name are
never entered in the name index, so they are never de-duplicated. -/
theorem C4_add_idempotence_counterexample :
    (AtomSpace.empty.addNode CONCEPT_NODE none none).1.id = 0 ∧
    ((AtomSpace.empty.addNode CONCEPT_NODE none none).2.addNode
        CONCEPT_NODE none none).1.id = 1 ∧
    (AtomSpace.empty.addNode CONCEPT_NODE none none).2.size = 1 ∧
    ((AtomSpace.empty.addNode CONCEPT_NODE none none).2.addNode
        CONCEPT_NODE none none).2.size = 2 := by
  decide

/-- A fresh id (the id generator's current value) is unused in a well-formed
store, so inserting a fresh atom takes `addAtom`'s appending branch. -/
lemma get_bump_fresh (s : AtomSpace) (hwf : s.WF) :
    ({ s with nextId := s.nextId + 1 } : AtomSpace).get s.nextId = none := by
  unfold AtomSpace.get
  exact List.find?_eq_none.mpr (fun x hx => by
    simp only [beq_iff_eq]
    exact Nat.ne_of_lt (hwf.2 x hx))

/-- `addAtom` on an id not yet present appends the atom and bumps the size. -/
lemma addAtom_fresh (s : AtomSpace) (a : Atom) (hget : s.get a.id = none) :
    s.addAtom a = (a, { s with atoms := s.atoms ++ [a], size := s.size + 1 }) := by
  unfold AtomSpace.addAtom
  rw [hget]

/-- `addNode` without a truth value returns the indexed node unchanged. -/
lemma addNode_of_found (s : AtomSpace) (ty : String) (nm : Option String) (e : Atom)
    (hfound : s.getNodeByName ty nm = some e) : s.addNode ty nm none = (e, s) := by
  unfold AtomSpace.addNode
  rw [hfound]

/-- `addLink` without a truth value returns the matching link unchanged. -/
lemma addLink_of_found (s : AtomSpace) (ty : String) (outg : List ℕ) (e : Atom)
    (hfound : s.getLinkByOutgoing ty outg = some e) : s.addLink ty outg none = (e, s) := by
  unfold AtomSpace.addLink
  rw [hfound]

/-- `addLink` with no structural match creates and appends a fresh link. -/
lemma addLink_of_absent (s : AtomSpace) (ty : String) (outg : List ℕ)
    (hwf : s.WF) (habsent : s.getLinkByOutgoing ty outg = none) :
    s.addLink ty outg none =
      (⟨s.nextId, ty, none, outg, TruthValue.default, AttentionValue.default⟩,
        { s with
            atoms := s.atoms ++
              [⟨s.nextId, ty, none, outg, TruthValue.default, AttentionValue.default⟩],
            size := s.size + 1, nextId := s.nextId + 1 }) := by
  unfold AtomSpace.addLink
  rw [habsent]
  dsimp only [Option.getD]
  rw [addAtom_fresh _ _ (get_bump_fresh s hwf)]

/-- After `addNode` with a truthy name, the name index resolves `(type, name)`
to the very atom the call returned. -/
lemma getNodeByName_addNode (s : AtomSpace) (ty : String) (nm : Option String)
    (hwf : s.WF) (hnm : nameTruthy nm = true) :
    (s.addNode ty nm none).2.getNodeByName ty nm = some (s.addNode ty nm none).1 := by
  unfold AtomSpace.addNode
  cases h : s.getNodeByName ty nm with
  | some e => simp [h]
  | none =>
    simp only [h]
    rw [addAtom_fresh _ _ (get_bump_fresh s hwf)]
    unfold AtomSpace.getNodeByName at h ⊢
    simp only [hnm, if_true] at h ⊢
    rw [List.find?_append, h]
    simp [Atom.isNode, hnm]

/-- After `addLink` of a structurally new link, the type index resolves
`(type, outgoing)` to the very atom the call returned. -/
lemma getLinkByOutgoing_addLink (s : AtomSpace) (ty : String) (outg : List ℕ)
    (hwf : s.WF) (houtg : outg ≠ []) (habsent : s.getLinkByOutgoing ty outg = none) :
    (s.addLink ty outg none).2.getLinkByOutgoing ty outg =
      some (s.addLink ty outg none).1 := by
  rw [addLink_of_absent s ty outg hwf habsent]
  unfold AtomSpace.getLinkByOutgoing at habsent ⊢
  rw [List.find?_append, habsent]
  simp [Atom.isLink, List.isEmpty_iff, houtg]

/-- **C4, amended.**  On a well-formed store, `add_node(T, n)` twice in
immediate succession returns the same atom and the second call leaves the
store (hence its size) unchanged, *provided the name `n` is truthy*; and for
non-empty outgoing, `add_link` twice returns the same atom, the second call
leaves the store unchanged, and the pair of calls grows the graph by exactly
one when the link was structurally new.  (Falsy-named nodes are never
de-duplicated — see the counterexample.) -/
theorem C4_add_idempotence_amended (s : AtomSpace) (tyN tyL : String)
    (nm : Option String) (outg : List ℕ) (hwf : s.WF) (hnm : nameTruthy nm = true)
    (houtg : outg ≠ []) (habsent : s.getLinkByOutgoing tyL outg = none) :
    ((s.addNode tyN nm none).2.addNode tyN nm none).1 = (s.addNode tyN nm none).1 ∧
    ((s.addNode tyN nm none).2.addNode tyN nm none).2 = (s.addNode tyN nm none).2 ∧
    ((s.addLink tyL outg none).2.addLink tyL outg none).1 = (s.addLink tyL outg none).1 ∧
    ((s.addLink tyL outg none).2.addLink tyL outg none).2 = (s.addLink tyL outg none).2 ∧
    (s.addLink tyL outg none).2.size = s.size + 1 := by
  have hn := addNode_of_found _ tyN nm _ (getNodeByName_addNode s tyN nm hwf hnm)
  have hl := addLink_of_found _ tyL outg _
    (getLinkByOutgoing_addLink s tyL outg hwf houtg habsent)
  have hsz : (s.addLink tyL outg none).2.size = s.size + 1 := by
    rw [addLink_of_absent s tyL outg hwf habsent]
  exact ⟨by rw [hn], by rw [hn], by rw [hl], by rw [hl], hsz⟩

/-- Witness for the amended C4 at a concrete input: re-adding the node
`(ConceptNode, "A")` and the link `(ListLink, [0, 1])` on the empty store. -/
theorem C4_add_idempotence_witness :
    ((AtomSpace.empty.addNode CONCEPT_NODE (some "A") none).2.addNode
        CONCEPT_NODE (some "A") none).1
      = (AtomSpace.empty.addNode CONCEPT_NODE (some "A") none).1 ∧
    ((AtomSpace.empty.addNode CONCEPT_NODE (some "A") none).2.addNode
        CONCEPT_NODE (some "A") none).2
      = (AtomSpace.empty.addNode CONCEPT_NODE (some "A") none).2 ∧
    ((AtomSpace.empty.addLink LIST_LINK [0, 1] none).2.addLink
        LIST_LINK [0, 1] none).1
      = (AtomSpace.empty.addLink LIST_LINK [0, 1] none).1 ∧
    ((AtomSpace.empty.addLink LIST_LINK [0, 1] none).2.addLink
        LIST_LINK [0, 1] none).2
      = (AtomSpace.empty.addLink LIST_LINK [0, 1] none).2 ∧
    (AtomSpace.empty.addLink LIST_LINK [0, 1] none).2.size = AtomSpace.empty.size + 1 :=
  C4_add_idempotence_amended AtomSpace.empty CONCEPT_NODE LIST_LINK (some "A") [0, 1]
    (by decide) (by decide) (by decide) (by decide)

/-- **C5.**  Add `A` (id 0), `B` (id 1) and `ListLink(A, B)` (id 2), then
`remove(A)`: the removal succeeds and `A` is gone, but the surviving link's
outgoing sequence still contains the dead id 0 — `removeAtom` unwires
incoming sets yet neither prunes outgoing sequences nor cascades, leaving a
dangling reference. -/
theorem C5_dangling_outgoing_code_bug :
    (listLinkSpace.removeAtom 0).1 = true ∧
    (listLinkSpace.removeAtom 0).2.get 0 = none ∧
    ((listLinkSpace.removeAtom 0).2.get 2).map Atom.outgoing = some [0, 1] := by
  decide

/-- **C6, counterexample.**  `stimulate` with amount `-5000` on an atom with
STI 0 under the default configuration (`minSTI = -1000`) leaves the atom with
STI `-5000 < minSTI`: `stimulateAtom` clamps only at `maxSTI` from above and
`setSTI` does not clamp at all. -/
theorem C6_sti_bounds_counterexample :
    (((stimulateAtom ECANConfig.default oneAtomState 0 (some (-5000))).2.space.get
        0).map (fun a => a.av.sti)) = some (-5000) ∧
    ¬ (ECANConfig.default.minSTI ≤ (-5000 : ℚ)) := by
  decide

/-- **C7.**  With `B→C` inserted before `A→B` (ids 3 and 4), the deduction
candidate list is exactly `[(3, 4)]`: the reversed ordered pair `(4, 3)` —
which is the one deduction could chain — is never enumerated, so one full
iteration records zero inferences and no `A→C` link appears.  The engine
enumerates only pairs `(i, j)` with `j > i`, not all ordered pairs. -/
theorem C7_ordered_pairs_code_bug :
    findRuleCandidates s1SwappedSpace RuleName.deduction = [(3, 4)] ∧
    (4, 3) ∉ findRuleCandidates s1SwappedSpace RuleName.deduction ∧
    (runIteration PLNConfig.default s1SwappedSpace).2 = 0 ∧
    (runIteration PLNConfig.default s1SwappedSpace).1.getLinkByOutgoing
        IMPLICATION_LINK [0, 2] = none := by
  decide

/-- **C8.**  `stimulate(id, 0)` on an existing atom with STI 0 returns
success but sets the STI to 10: the `amount || stimulusAmount` fallback
treats the amount 0 as missing and substitutes the default stimulus, so a
zero stimulus does *not* leave the STI unchanged. -/
theorem C8_stimulate_zero_code_bug :
    ((oneAtomState.space.get 0).map (fun a => a.av.sti)) = some 0 ∧
    (stimulateAtom ECANConfig.default oneAtomState 0 (some 0)).1 = true ∧
    (((stimulateAtom ECANConfig.default oneAtomState 0 (some 0)).2.space.get
        0).map (fun a => a.av.sti)) = some 10 := by
  decide

/-- **C9, counterexample.**  An atom with STI 5 under the default decay rate
`0.01`: the claim's "reduced by `STI * decayRate` rounded toward zero" would
leave the STI at `5 - ⌊0.05⌋ = 5`, but the decay phase performs no rounding
and leaves the STI at `4.95`. -/
theorem C9_decay_rounding_counterexample :
    (((applySTIDecay ECANConfig.default fiveSTIState).space.get 0).map
        (fun a => a.av.sti)) = some (99/20) ∧
    (99/20 : ℚ) ≠ 5 - (((5 : ℚ) * ECANConfig.default.decayRate).floor : ℚ) := by
  decide

/-- With pairwise-distinct ids, looking an atom's id up in the list finds that
atom. -/
lemma find?_id_of_nodup (l : List Atom) (hnd : (l.map Atom.id).Nodup) (a : Atom)
    (ha : a ∈ l) : l.find? (fun x => x.id == a.id) = some a := by
  induction l with
  | nil => cases ha
  | cons x xs ih =>
    rcases List.mem_cons.mp ha with rfl | hmem
    · simp [List.find?_cons_of_pos]
    · have hx : x.id ≠ a.id := by
        intro hEq
        exact (List.nodup_cons.mp hnd).1 (hEq ▸ List.mem_map_of_mem Atom.id hmem)
      rw [List.find?_cons_of_neg _ (by simpa using hx)]
      exact ih (List.nodup_cons.mp hnd).2 hmem

/-- In a well-formed store every stored atom is retrievable by its id. -/
lemma get_of_mem (s : AtomSpace) (hwf : s.WF) (a : Atom) (ha : a ∈ s.atoms) :
    s.get a.id = some a :=
  find?_id_of_nodup s.atoms hwf.1 a ha

/-- `updateAtom` with an id-preserving mutation commutes with retrieval. -/
lemma get_updateAtom (s : AtomSpace) (id0 : ℕ) (f : Atom → Atom)
    (hf : ∀ a, (f a).id = a.id) (i : ℕ) :
    (s.updateAtom id0 f).get i =
      (s.get i).map (fun a => if a.id == id0 then f a else a) := by
  unfold AtomSpace.updateAtom AtomSpace.get
  rw [List.find?_map]
  have hcomp :
      ((fun a => a.id == i) ∘ fun a => if (a.id == id0) = true then f a else a) =
        (fun a : Atom => a.id == i) := by
    funext a
    by_cases h : a.id == id0 <;> simp [Function.comp, h, hf]
  rw [hcomp]

/-- `addLink` with a supplied truth value yields (found or fresh) a link of
the requested type and outgoing carrying exactly that truth value, stored
under its id. -/
lemma addLink_some_spec (s : AtomSpace) (ty : String) (outg : List ℕ)
    (tv : TruthValue) (hwf : s.WF) :
    (s.addLink ty outg (some tv)).1.type = ty ∧
    (s.addLink ty outg (some tv)).1.outgoing = outg ∧
    (s.addLink ty outg (some tv)).1.tv = tv ∧
    (s.addLink ty outg (some tv)).2.get (s.addLink ty outg (some tv)).1.id
      = some (s.addLink ty outg (some tv)).1 := by
  unfold AtomSpace.addLink
  cases h : s.getLinkByOutgoing ty outg with
  | some e =>
    have hp := List.find?_some h
    simp only [Bool.and_eq_true, beq_iff_eq] at hp
    have hmem := List.mem_of_find?_eq_some h
    simp only [h]
    refine ⟨hp.1.1, hp.2, trivial, ?_⟩
    rw [get_updateAtom s e.id (fun a => { a with tv := tv }) (fun a => rfl)]
    rw [show s.get e.id = some e from get_of_mem s hwf e hmem]
    simp
  | none =>
    simp only [h]
    dsimp only [Option.getD]
    rw [addAtom_fresh _ _ (get_bump_fresh s hwf)]
    refine ⟨rfl, rfl, rfl, ?_⟩
    unfold AtomSpace.get
    rw [List.find?_append]
    rw [show List.find? (fun x => x.id == s.nextId) s.atoms = none from
      List.find?_eq_none.mpr (fun x hx => by
        simp only [beq_iff_eq]
        exact Nat.ne_of_lt (hwf.2 x hx))]
    simp

end MelonCog
namespace MelonCog

/-- On truth values already inside `[0,1]` the deduction formula's clamps are
no-ops: the result is literally `(s1*s2, c1*c2*(1 - s1 + s1*s2))`. -/
lemma calculateDeductionTV_eq (tv1 tv2 : TruthValue)
    (h1 : 0 ≤ tv1.strength) (h2 : tv1.strength ≤ 1)
    (h3 : 0 ≤ tv1.confidence) (h4 : tv1.confidence ≤ 1)
    (h5 : 0 ≤ tv2.strength) (h6 : tv2.strength ≤ 1)
    (h7 : 0 ≤ tv2.confidence) (h8 : tv2.confidence ≤ 1) :
    calculateDeductionTV tv1 tv2 =
      ⟨tv1.strength * tv2.strength,
        tv1.confidence * tv2.confidence *
          (1 - tv1.strength + tv1.strength * tv2.strength)⟩ := by
  have hs0 : 0 ≤ tv1.strength * tv2.strength := mul_nonneg h1 h5
  have hs1 : tv1.strength * tv2.strength ≤ 1 := mul_le_one₀ h2 h5 h6
  have hmid0 : 0 ≤ 1 - tv1.strength + tv1.strength * tv2.strength := by
    nlinarith [mul_le_one₀ h2 (by linarith : (0:ℚ) ≤ 1 - tv2.strength)
      (by linarith : 1 - tv2.strength ≤ 1)]
  have hmid1 : 1 - tv1.strength + tv1.strength * tv2.strength ≤ 1 := by
    nlinarith [mul_nonneg h1 (by linarith : (0:ℚ) ≤ 1 - tv2.strength)]
  have hc0 : 0 ≤ tv1.confidence * tv2.confidence *
      (1 - tv1.strength + tv1.strength * tv2.strength) :=
    mul_nonneg (mul_nonneg h3 h7) hmid0
  have hc1 : tv1.confidence * tv2.confidence *
      (1 - tv1.strength + tv1.strength * tv2.strength) ≤ 1 :=
    mul_le_one₀ (mul_le_one₀ h4 h7 h8) hmid0 hmid1
  unfold calculateDeductionTV TruthValue.make clamp01
  simp only [TruthValue.mk.injEq]
  constructor
  · rw [min_eq_right hs1, max_eq_right hs0]
  · rw [min_eq_left hc1, min_eq_right hc1, max_eq_right hc0]

/-- **C1, amended.**  Whenever the deduction rule fires on premises
`p1 = A→B` and `p2 = B→C` (well-formed store, equivalent middle terms, truth
values inside `[0,1]`), it produces a result whose truth value is exactly
`(s1*s2, c1*c2*(1 - s1 + s1*s2))`, and the store afterwards holds an
`ImplicationLink [A, C]` carrying that truth value.  (The full-iteration
version of the claim fails: later rules of the same iteration can overwrite
this value — see the counterexample.) -/
theorem C1_deduction_rule_amended (s : AtomSpace) (i j aId b1 b2 cId : ℕ)
    (p1 p2 ab1 ab2 : Atom) (hwf : s.WF)
    (hp1 : s.get i = some p1) (hp2 : s.get j = some p2)
    (ho1 : p1.outgoing = [aId, b1]) (ho2 : p2.outgoing = [b2, cId])
    (hb1 : s.get b1 = some ab1) (hb2 : s.get b2 = some ab2)
    (heq : atomsAreEquivalent ab1 ab2 = true)
    (hv1 : 0 ≤ p1.tv.strength ∧ p1.tv.strength ≤ 1 ∧
           0 ≤ p1.tv.confidence ∧ p1.tv.confidence ≤ 1)
    (hv2 : 0 ≤ p2.tv.strength ∧ p2.tv.strength ≤ 1 ∧
           0 ≤ p2.tv.confidence ∧ p2.tv.confidence ≤ 1) :
    ∃ res : InferenceResult,
      (applyDeduction s (i, j)).2 = some res ∧
      res.truthValue = ⟨p1.tv.strength * p2.tv.strength,
        p1.tv.confidence * p2.tv.confidence *
          (1 - p1.tv.strength + p1.tv.strength * p2.tv.strength)⟩ ∧
      res.conclusion.type = IMPLICATION_LINK ∧
      res.conclusion.outgoing = [aId, cId] ∧
      res.conclusion.tv = res.truthValue ∧
      (applyDeduction s (i, j)).1.get res.conclusion.id = some res.conclusion := by
  obtain ⟨hA, hB, hC, hD⟩ :=
    addLink_some_spec s IMPLICATION_LINK [aId, cId]
      (calculateDeductionTV p1.tv p2.tv) hwf
  have htv := calculateDeductionTV_eq p1.tv p2.tv hv1.1 hv1.2.1 hv1.2.2.1 hv1.2.2.2
    hv2.1 hv2.2.1 hv2.2.2.1 hv2.2.2.2
  unfold applyDeduction
  simp only [hp1, hp2, ho1, ho2, hb1, hb2, heq, if_true]
  exact ⟨⟨RuleName.deduction,
      (s.addLink IMPLICATION_LINK [aId, cId]
        (some (calculateDeductionTV p1.tv p2.tv))).1,
      calculateDeductionTV p1.tv p2.tv⟩,
    rfl, htv, hA, hB, by simpa using hC, hD⟩

/-- Witness for the amended C1 at scenario S1: the deduction application on
premises (ids 3, 4) yields `A→C` with truth value `(0.63, 0.3504)`. -/
theorem C1_deduction_rule_witness :
    ∃ res : InferenceResult,
      (applyDeduction s1Space (3, 4)).2 = some res ∧
      res.truthValue = ⟨63/100, 219/625⟩ ∧
      res.conclusion.type = IMPLICATION_LINK ∧
      res.conclusion.outgoing = [0, 2] ∧
      res.conclusion.tv = res.truthValue ∧
      (applyDeduction s1Space (3, 4)).1.get res.conclusion.id = some res.conclusion := by
  obtain ⟨res, ha, hb, hc, hd, he, hf⟩ :=
    C1_deduction_rule_amended s1Space 3 4 0 1 1 2
      ⟨3, IMPLICATION_LINK, none, [0, 1], ⟨9/10, 4/5⟩, ⟨0, 0, false⟩⟩
      ⟨4, IMPLICATION_LINK, none, [1, 2], ⟨7/10, 3/5⟩, ⟨0, 0, false⟩⟩
      ⟨1, CONCEPT_NODE, some "B", [], ⟨1/2, 0⟩, ⟨0, 0, false⟩⟩
      ⟨1, CONCEPT_NODE, some "B", [], ⟨1/2, 0⟩, ⟨0, 0, false⟩⟩
      (by decide) (by decide) (by decide) (by decide) (by decide)
      (by decide) (by decide) (by decide) (by decide) (by decide)
  exact ⟨res, ha, by rw [hb]; decide, hc, hd, he, hf⟩

/-- The decay pass, written as a left fold like the reference's loop,
rebuilds the atom list as a map and accumulates exactly the positive atoms'
decay amounts onto the pool. -/
lemma decay_foldl (cfg : ECANConfig) (l : List Atom) (acc : List Atom) (p : ℚ) :
    l.foldl
      (fun (acc : List Atom × ℚ) atom =>
        if atom.av.sti > 0 then
          let decay := atom.av.sti * cfg.decayRate
          (acc.1 ++ [atom.withSTI (max (atom.av.sti - decay) 0)], acc.2 + decay)
        else (acc.1 ++ [atom], acc.2))
      (acc, p) =
    (acc ++ l.map (fun a =>
        if 0 < a.av.sti then a.withSTI (max (a.av.sti - a.av.sti * cfg.decayRate) 0) else a),
      p + (l.map (fun a => if 0 < a.av.sti then a.av.sti * cfg.decayRate else 0)).sum) := by
  induction l generalizing acc p with
  | nil => simp
  | cons x xs ih =>
    by_cases hx : 0 < x.av.sti
    · simp only [List.foldl_cons, if_pos hx, List.map_cons, List.sum_cons, ih]
      simp [List.append_assoc, add_assoc]
    · simp only [List.foldl_cons, if_neg hx, List.map_cons, List.sum_cons, ih]
      simp [List.append_assoc, add_assoc]

/-- **C9, amended.**  In the decay phase, every atom with positive STI ends at
`max(STI − STI·decayRate, 0)` — the reduction is exactly `STI · decayRate`
with **no rounding** — every atom with `STI ≤ 0` keeps its STI, and the pool
gains the sum of the positive atoms' (unrounded) decay amounts. -/
theorem C9_decay_amended (cfg : ECANConfig) (st : ECANState) :
    (∀ a ∈ st.space.atoms, ∃ b ∈ (applySTIDecay cfg st).space.atoms,
        b.id = a.id ∧
        b.av.sti =
          (if 0 < a.av.sti then max (a.av.sti - a.av.sti * cfg.decayRate) 0
           else a.av.sti)) ∧
    (applySTIDecay cfg st).pool =
      st.pool + (st.space.atoms.map
        (fun a => if 0 < a.av.sti then a.av.sti * cfg.decayRate else 0)).sum := by
  unfold applySTIDecay AtomSpace.getAllAtoms
  rw [decay_foldl]
  constructor
  · intro a ha
    refine ⟨if 0 < a.av.sti then a.withSTI (max (a.av.sti - a.av.sti * cfg.decayRate) 0) else a,
      ?_, ?_, ?_⟩
    · simpa using List.mem_map_of_mem _ ha
    · by_cases h : 0 < a.av.sti <;> simp [h, Atom.withSTI]
    · by_cases h : 0 < a.av.sti <;> simp [h, Atom.withSTI]
  · rfl

/-- Witness for the amended C9: the atom with STI 5 ends at `4.95 = 99/20`
under the default decay rate `0.01`, and the pool (`9995` after the stimulus)
gains exactly `0.05`. -/
theorem C9_decay_amended_witness :
    (∃ b ∈ (applySTIDecay ECANConfig.default fiveSTIState).space.atoms,
        b.id = 0 ∧ b.av.sti = 99/20) ∧
    (applySTIDecay ECANConfig.default fiveSTIState).pool = 9995 + 1/20 := by
  have h := C9_decay_amended ECANConfig.default fiveSTIState
  obtain ⟨b, hb, hid, hsti⟩ :=
    h.1 ⟨0, CONCEPT_NODE, some "A", [], TruthValue.default, ⟨5, 0, false⟩⟩ (by decide)
  refine ⟨⟨b, hb, hid, ?_⟩, ?_⟩
  · rw [hsti]; decide
  · rw [h.2]; decide

/-- **C10.**  The job-execution path races the plugin against the fixed
`SAFE_TIMEOUT` of 30000 ms, not the job's configured timeout: whenever the
plugin does not settle within 30000 ms and the retry budget is exhausted, the
job fails with the timed-out error — even when `options.timeout` exceeds
30000 ms, so a configured timeout above 30 seconds is never honoured by this
path. -/
theorem C10_fixed_timeout (job : Job) (run : PluginRun)
    (_hbig : 30000 < job.options.timeout)
    (hretries : job.options.maxRetries ≤ job.retryCount)
    (hsettle : SAFE_TIMEOUT < run.settleTime) :
    (executeJob job run).status = JobStatus.failed ∧
    (executeJob job run).error = some "Job timed out" := by
  unfold executeJob
  have hnoretry : ¬ (job.retryCount < job.options.maxRetries) :=
    Nat.not_lt.mpr hretries
  simp [hsettle, hnoretry]

/-- Witness for C10: a job whose configured timeout is 60000 ms and whose
plugin settles successfully only after 40000 ms still fails with the
timed-out error. -/
theorem C10_fixed_timeout_witness :
    (executeJob
        ⟨⟨60000, 0⟩, JobStatus.queued, 0, none⟩
        ⟨40000, Except.ok ()⟩).status = JobStatus.failed ∧
    (executeJob
        ⟨⟨60000, 0⟩, JobStatus.queued, 0, none⟩
        ⟨40000, Except.ok ()⟩).error = some "Job timed out" :=
  C10_fixed_timeout ⟨⟨60000, 0⟩, JobStatus.queued, 0, none⟩ ⟨40000, Except.ok ()⟩
    (by decide) (by decide) (by decide)

end MelonCog
namespace MelonCog

/-- Retrievability of an id is membership in the stored id list. -/
lemma get_isSome_iff (s : AtomSpace) (i : ℕ) :
    (s.get i).isSome ↔ i ∈ s.atoms.map Atom.id := by
  unfold AtomSpace.get
  rw [List.find?_isSome]
  constructor
  · rintro ⟨x, hx, hpx⟩
    exact List.mem_map.mpr ⟨x, hx, by simpa using hpx⟩
  · intro hi
    obtain ⟨x, hx, hxi⟩ := List.mem_map.mp hi
    exact ⟨x, hx, by simpa using hxi⟩

/-- Focus liveness transfers along operations that keep the focus list and
the stored ids. -/
lemma focusLive_of_shape (s s' : AtomSpace)
    (hfoc : s'.attentionalFocus = s.attentionalFocus)
    (hids : s'.atoms.map Atom.id = s.atoms.map Atom.id)
    (h : s.FocusLive) : s'.FocusLive := by
  intro i hi
  rw [hfoc] at hi
  rw [get_isSome_iff, hids]
  exact (get_isSome_iff s i).mp (h i hi)

/-- `updateAtom` never touches the focus set. -/
lemma updateAtom_focus (s : AtomSpace) (id0 : ℕ) (f : Atom → Atom) :
    (s.updateAtom id0 f).attentionalFocus = s.attentionalFocus := rfl

/-- `updateAtom` with an id-preserving mutation keeps the stored id list. -/
lemma updateAtom_ids (s : AtomSpace) (id0 : ℕ) (f : Atom → Atom)
    (hf : ∀ a, (f a).id = a.id) :
    (s.updateAtom id0 f).atoms.map Atom.id = s.atoms.map Atom.id := by
  unfold AtomSpace.updateAtom
  rw [List.map_map]
  apply List.map_congr_left
  intro a _
  by_cases h : a.id == id0
  · simp only [h, if_true, Function.comp, hf]
  · simp only [h, Bool.false_eq_true, if_false, Function.comp]

/-- Setting one atom's STI to an in-range value preserves the bounds
invariant. -/
lemma stiBounds_updateAtom_withSTI (cfg : ECANConfig) (s : AtomSpace) (id0 : ℕ)
    (v : ℚ) (h : STIBounds cfg s) (hv : cfg.minSTI ≤ v ∧ v ≤ cfg.maxSTI) :
    STIBounds cfg (s.updateAtom id0 (fun a => a.withSTI v)) := by
  intro b hb
  unfold AtomSpace.updateAtom at hb
  obtain ⟨a, ha, rfl⟩ := List.mem_map.mp hb
  by_cases hid : a.id == id0
  · simpa [hid, Atom.withSTI] using hv
  · simpa [hid] using h a ha

/-- The bounds invariant restricts to sub-stores. -/
lemma stiBounds_of_subset (cfg : ECANConfig) (s s' : AtomSpace)
    (hsub : ∀ a ∈ s'.atoms, a ∈ s.atoms) (h : STIBounds cfg s) :
    STIBounds cfg s' := fun a ha => h a (hsub a ha)

end MelonCog
namespace MelonCog

/-- The rent loop keeps the focus set and the stored ids, and — for sane
tunables and in-range inputs — the STI bounds. -/
lemma rent_fold_props (cfg : ECANConfig) (L : List Atom) (st : ECANState) :
    ((L.foldl (fun acc atom =>
        { acc with
          space := acc.space.updateAtom atom.id
            (fun a => a.withSTI (max (atom.av.sti - cfg.rentAmount) cfg.minSTI)),
          pool := acc.pool + cfg.rentAmount }) st).space.attentionalFocus
      = st.space.attentionalFocus) ∧
    ((L.foldl (fun acc atom =>
        { acc with
          space := acc.space.updateAtom atom.id
            (fun a => a.withSTI (max (atom.av.sti - cfg.rentAmount) cfg.minSTI)),
          pool := acc.pool + cfg.rentAmount }) st).space.atoms.map Atom.id
      = st.space.atoms.map Atom.id) ∧
    (cfg.minSTI ≤ cfg.maxSTI → 0 ≤ cfg.rentAmount →
      (∀ a ∈ L, a.av.sti ≤ cfg.maxSTI) → STIBounds cfg st.space →
      STIBounds cfg (L.foldl (fun acc atom =>
        { acc with
          space := acc.space.updateAtom atom.id
            (fun a => a.withSTI (max (atom.av.sti - cfg.rentAmount) cfg.minSTI)),
          pool := acc.pool + cfg.rentAmount }) st).space) := by
  induction L generalizing st with
  | nil => exact ⟨rfl, rfl, fun _ _ _ h => h⟩
  | cons x xs ih =>
    simp only [List.foldl_cons]
    refine ⟨?_, ?_, ?_⟩
    · rw [(ih _).1, updateAtom_focus]
    · rw [(ih _).2.1,
        updateAtom_ids _ _
          (fun a => a.withSTI (max (x.av.sti - cfg.rentAmount) cfg.minSTI))
          (fun a => rfl)]
    · intro hmm hrent hL hb
      refine (ih _).2.2 hmm hrent (fun a ha => hL a (List.mem_cons_of_mem x ha)) ?_
      refine stiBounds_updateAtom_withSTI cfg st.space x.id _ hb ⟨le_max_right _ _, ?_⟩
      have hx := hL x (List.mem_cons_self x xs)
      exact max_le (by linarith) hmm

/-- `collectRent` keeps the focus set. -/
lemma collectRent_focus (cfg : ECANConfig) (st : ECANState) :
    (collectRent cfg st).space.attentionalFocus = st.space.attentionalFocus := by
  unfold collectRent
  exact (rent_fold_props cfg _ st).1

/-- `collectRent` keeps the stored id list. -/
lemma collectRent_ids (cfg : ECANConfig) (st : ECANState) :
    (collectRent cfg st).space.atoms.map Atom.id = st.space.atoms.map Atom.id := by
  unfold collectRent
  exact (rent_fold_props cfg _ st).2.1

/-- `collectRent` preserves the STI bounds for sane tunables. -/
lemma collectRent_bounds (cfg : ECANConfig) (st : ECANState)
    (hmm : cfg.minSTI ≤ cfg.maxSTI) (hrent : 0 ≤ cfg.rentAmount)
    (hb : STIBounds cfg st.space) : STIBounds cfg (collectRent cfg st).space := by
  unfold collectRent
  refine (rent_fold_props cfg _ st).2.2 hmm hrent ?_ hb
  intro a ha
  unfold AtomSpace.getAttentionalFocus at ha
  obtain ⟨i, _, hget⟩ := List.mem_filterMap.mp ha
  exact (hb a (List.mem_of_find?_eq_some hget)).2

end MelonCog
namespace MelonCog

/-- The decay phase is a pointwise map over the stored atoms. -/
lemma applySTIDecay_atoms (cfg : ECANConfig) (st : ECANState) :
    (applySTIDecay cfg st).space.atoms =
      st.space.atoms.map (fun a =>
        if 0 < a.av.sti then a.withSTI (max (a.av.sti - a.av.sti * cfg.decayRate) 0)
        else a) := by
  unfold applySTIDecay AtomSpace.getAllAtoms
  rw [decay_foldl]
  simp

/-- The decay phase keeps the focus set. -/
lemma applySTIDecay_focus (cfg : ECANConfig) (st : ECANState) :
    (applySTIDecay cfg st).space.attentionalFocus = st.space.attentionalFocus := rfl

/-- The decay phase keeps the stored id list. -/
lemma applySTIDecay_ids (cfg : ECANConfig) (st : ECANState) :
    (applySTIDecay cfg st).space.atoms.map Atom.id = st.space.atoms.map Atom.id := by
  rw [applySTIDecay_atoms, List.map_map]
  apply List.map_congr_left
  intro a _
  by_cases h : 0 < a.av.sti
  · simp only [h, if_true, Function.comp, Atom.withSTI]
  · simp only [h, if_false, Function.comp]

/-- The decay phase preserves the STI bounds for sane tunables. -/
lemma applySTIDecay_bounds (cfg : ECANConfig) (st : ECANState)
    (hmin : cfg.minSTI ≤ 0) (hmax : 0 ≤ cfg.maxSTI) (hdecay : 0 ≤ cfg.decayRate)
    (hb : STIBounds cfg st.space) : STIBounds cfg (applySTIDecay cfg st).space := by
  intro b hbmem
  rw [applySTIDecay_atoms] at hbmem
  obtain ⟨a, ha, rfl⟩ := List.mem_map.mp hbmem
  by_cases h : 0 < a.av.sti
  · have hab := hb a ha
    simp only [h, if_true, Atom.withSTI]
    constructor
    · exact le_trans hmin (le_max_right _ _)
    · refine max_le ?_ hmax
      nlinarith [hab.2]
  · simpa [h] using hb a ha

end MelonCog
namespace MelonCog

/-- The per-neighbour spreading loop keeps the focus set and the stored ids,
its running total grows by at most `amt` per neighbour, and in-range inputs
stay in range when `amt ≥ 0`. -/
lemma spread_inner_props (cfg : ECANConfig) (rng : ℕ → ℚ) (amt : ℚ) (l : List ℕ)
    (acc : AtomSpace × ℕ × ℚ) :
    ((l.foldl (fun (acc : AtomSpace × ℕ × ℚ) cid =>
        if rng acc.2.1 < cfg.spreadProbability then
          let space :=
            match acc.1.get cid with
            | some connectedAtom =>
              acc.1.updateAtom cid (fun a =>
                a.withSTI (min (connectedAtom.av.sti + amt) cfg.maxSTI))
            | none => acc.1
          (space, acc.2.1 + 1, acc.2.2 + amt)
        else (acc.1, acc.2.1 + 1, acc.2.2)) acc).1.attentionalFocus
      = acc.1.attentionalFocus) ∧
    ((l.foldl (fun (acc : AtomSpace × ℕ × ℚ) cid =>
        if rng acc.2.1 < cfg.spreadProbability then
          let space :=
            match acc.1.get cid with
            | some connectedAtom =>
              acc.1.updateAtom cid (fun a =>
                a.withSTI (min (connectedAtom.av.sti + amt) cfg.maxSTI))
            | none => acc.1
          (space, acc.2.1 + 1, acc.2.2 + amt)
        else (acc.1, acc.2.1 + 1, acc.2.2)) acc).1.atoms.map Atom.id
      = acc.1.atoms.map Atom.id) ∧
    (0 ≤ amt →
      acc.2.2 ≤ (l.foldl (fun (acc : AtomSpace × ℕ × ℚ) cid =>
        if rng acc.2.1 < cfg.spreadProbability then
          let space :=
            match acc.1.get cid with
            | some connectedAtom =>
              acc.1.updateAtom cid (fun a =>
                a.withSTI (min (connectedAtom.av.sti + amt) cfg.maxSTI))
            | none => acc.1
          (space, acc.2.1 + 1, acc.2.2 + amt)
        else (acc.1, acc.2.1 + 1, acc.2.2)) acc).2.2 ∧
      (l.foldl (fun (acc : AtomSpace × ℕ × ℚ) cid =>
        if rng acc.2.1 < cfg.spreadProbability then
          let space :=
            match acc.1.get cid with
            | some connectedAtom =>
              acc.1.updateAtom cid (fun a =>
                a.withSTI (min (connectedAtom.av.sti + amt) cfg.maxSTI))
            | none => acc.1
          (space, acc.2.1 + 1, acc.2.2 + amt)
        else (acc.1, acc.2.1 + 1, acc.2.2)) acc).2.2 ≤ acc.2.2 + l.length * amt) ∧
    (cfg.minSTI ≤ cfg.maxSTI → 0 ≤ amt → STIBounds cfg acc.1 →
      STIBounds cfg (l.foldl (fun (acc : AtomSpace × ℕ × ℚ) cid =>
        if rng acc.2.1 < cfg.spreadProbability then
          let space :=
            match acc.1.get cid with
            | some connectedAtom =>
              acc.1.updateAtom cid (fun a =>
                a.withSTI (min (connectedAtom.av.sti + amt) cfg.maxSTI))
            | none => acc.1
          (space, acc.2.1 + 1, acc.2.2 + amt)
        else (acc.1, acc.2.1 + 1, acc.2.2)) acc).1) := by
  induction l generalizing acc with
  | nil => exact ⟨rfl, rfl, fun _ => ⟨le_refl _, by simp⟩, fun _ _ h => h⟩
  | cons cid xs ih =>
    simp only [List.foldl_cons]
    by_cases hr : rng acc.2.1 < cfg.spreadProbability
    · simp only [if_pos hr]
      cases hget : acc.1.get cid with
      | some catom =>
        simp only [hget]
        set f : Atom → Atom :=
          fun a => a.withSTI (min (catom.av.sti + amt) cfg.maxSTI) with hfdef
        refine ⟨?_, ?_, ?_, ?_⟩
        · rw [(ih _).1]
          exact updateAtom_focus _ _ _
        · rw [(ih _).2.1]
          exact updateAtom_ids _ _ f (fun a => rfl)
        · intro hamt
          obtain ⟨hlo, hhi⟩ := (ih _).2.2.1 hamt
          constructor
          · calc acc.2.2 ≤ acc.2.2 + amt := by linarith
              _ ≤ _ := hlo
          · calc _ ≤ acc.2.2 + amt + xs.length * amt := hhi
              _ = acc.2.2 + (cid :: xs).length * amt := by
                  push_cast [List.length_cons]
                  ring
        · intro hmm hamt hb
          refine (ih _).2.2.2 hmm hamt ?_
          have hcb := hb catom (List.mem_of_find?_eq_some hget)
          refine stiBounds_updateAtom_withSTI cfg acc.1 cid _ hb ⟨?_, min_le_right _ _⟩
          exact le_min (by linarith [hcb.1]) hmm
      | none =>
        simp only [hget]
        refine ⟨(ih _).1, (ih _).2.1, ?_, fun hmm hamt hb => (ih _).2.2.2 hmm hamt hb⟩
        intro hamt
        obtain ⟨hlo, hhi⟩ := (ih _).2.2.1 hamt
        constructor
        · calc acc.2.2 ≤ acc.2.2 + amt := by linarith
            _ ≤ _ := hlo
        · calc _ ≤ acc.2.2 + amt + xs.length * amt := hhi
            _ = acc.2.2 + (cid :: xs).length * amt := by
                push_cast [List.length_cons]
                ring
    · simp only [if_neg hr]
      refine ⟨(ih _).1, (ih _).2.1, ?_, fun hmm hamt hb => (ih _).2.2.2 hmm hamt hb⟩
      intro hamt
      obtain ⟨hlo, hhi⟩ := (ih _).2.2.1 hamt
      refine ⟨hlo, ?_⟩
      calc _ ≤ acc.2.2 + xs.length * amt := hhi
        _ ≤ acc.2.2 + (cid :: xs).length * amt := by
            push_cast [List.length_cons]
            nlinarith

end MelonCog
namespace MelonCog

/-- Specialisation of `updateAtom_ids` to STI writes. -/
lemma updateAtom_withSTI_ids (s : AtomSpace) (id0 : ℕ) (v : ℚ) :
    (s.updateAtom id0 (fun a => a.withSTI v)).atoms.map Atom.id
      = s.atoms.map Atom.id :=
  updateAtom_ids s id0 (fun a => a.withSTI v) (fun _ => rfl)

/-- `spreadFromAtom` keeps the focus set and the stored ids, and preserves
the STI bounds for sane tunables: receivers are clamped at `maxSTI`, and the
source loses at most `STI · diffusionRate` of its (necessarily positive)
STI. -/
lemma spreadFromAtom_props (cfg : ECANConfig) (rng : ℕ → ℚ) (s : AtomSpace)
    (k : ℕ) (aid : ℕ) :
    ((spreadFromAtom cfg rng s k aid).1.attentionalFocus = s.attentionalFocus) ∧
    ((spreadFromAtom cfg rng s k aid).1.atoms.map Atom.id = s.atoms.map Atom.id) ∧
    (cfg.minSTI ≤ 0 → 0 ≤ cfg.maxSTI → 0 ≤ cfg.diffusionRate →
      cfg.diffusionRate ≤ 1 →
      STIBounds cfg s → STIBounds cfg (spreadFromAtom cfg rng s k aid).1) := by
  unfold spreadFromAtom
  cases hget : s.get aid with
  | none => exact ⟨rfl, rfl, fun _ _ _ _ h => h⟩
  | some atom =>
    simp only [hget]
    by_cases hlt : atom.av.sti * cfg.diffusionRate < 1
    · simp only [if_pos hlt]
      refine ⟨?_, ?_, fun _ _ _ _ h => h⟩ <;> trivial
    · simp only [if_neg hlt]
      by_cases hlen : (connectedIds s atom).length = 0
      · simp only [if_pos hlen]
        refine ⟨?_, ?_, fun _ _ _ _ h => h⟩ <;> trivial
      · simp only [if_neg hlen]
        have hinner := spread_inner_props cfg rng
          (atom.av.sti * cfg.diffusionRate / ((connectedIds s atom).length : ℚ))
          (connectedIds s atom) (s, k, 0)
        have hlenpos : 0 < ((connectedIds s atom).length : ℚ) := by
          exact_mod_cast Nat.pos_of_ne_zero hlen
        have hspr : 1 ≤ atom.av.sti * cfg.diffusionRate := by linarith [not_lt.mp hlt]
        have hamt : 0 ≤ atom.av.sti * cfg.diffusionRate /
            ((connectedIds s atom).length : ℚ) :=
          div_nonneg (by linarith) (le_of_lt hlenpos)
        refine ⟨?_, ?_, ?_⟩
        · rw [updateAtom_focus, hinner.1]
        · rw [updateAtom_withSTI_ids, hinner.2.1]
        · intro hmin hmax hd0 hd1 hb
          have hbmid := hinner.2.2.2 (by linarith) hamt hb
          obtain ⟨htot0, htot1⟩ := hinner.2.2.1 hamt
          have htoteq : ((connectedIds s atom).length : ℚ) *
              (atom.av.sti * cfg.diffusionRate / ((connectedIds s atom).length : ℚ))
              = atom.av.sti * cfg.diffusionRate := by
            field_simp
          have hcur := hb atom (List.mem_of_find?_eq_some hget)
          have hcurpos : 0 < atom.av.sti := by
            by_contra hc
            push_neg at hc
            have : atom.av.sti * cfg.diffusionRate ≤ 0 := by nlinarith
            linarith
          refine stiBounds_updateAtom_withSTI cfg _ aid _ hbmid ⟨?_, ?_⟩
          · have hfinal : 0 ≤ atom.av.sti * (1 - cfg.diffusionRate) :=
              mul_nonneg (le_of_lt hcurpos) (by linarith)
            nlinarith
          · have : (0 : ℚ) ≤ 0 := le_refl 0
            nlinarith [hcur.2]

end MelonCog
namespace MelonCog

/-- The spreading pass over the focus snapshot keeps the focus set and the
stored ids and preserves the STI bounds for sane tunables. -/
lemma spread_outer_props (cfg : ECANConfig) (rng : ℕ → ℚ) (l : List ℕ)
    (acc : AtomSpace × ℕ × ℚ) :
    ((l.foldl (fun (acc : AtomSpace × ℕ × ℚ) fid =>
        match acc.1.get fid with
        | some atom =>
          if atom.av.sti > cfg.minSTI * 2 then
            let step := spreadFromAtom cfg rng acc.1 acc.2.1 fid
            (step.1, step.2.1, acc.2.2 + step.2.2)
          else acc
        | none => acc) acc).1.attentionalFocus = acc.1.attentionalFocus) ∧
    ((l.foldl (fun (acc : AtomSpace × ℕ × ℚ) fid =>
        match acc.1.get fid with
        | some atom =>
          if atom.av.sti > cfg.minSTI * 2 then
            let step := spreadFromAtom cfg rng acc.1 acc.2.1 fid
            (step.1, step.2.1, acc.2.2 + step.2.2)
          else acc
        | none => acc) acc).1.atoms.map Atom.id = acc.1.atoms.map Atom.id) ∧
    (cfg.minSTI ≤ 0 → 0 ≤ cfg.maxSTI → 0 ≤ cfg.diffusionRate →
      cfg.diffusionRate ≤ 1 → STIBounds cfg acc.1 →
      STIBounds cfg (l.foldl (fun (acc : AtomSpace × ℕ × ℚ) fid =>
        match acc.1.get fid with
        | some atom =>
          if atom.av.sti > cfg.minSTI * 2 then
            let step := spreadFromAtom cfg rng acc.1 acc.2.1 fid
            (step.1, step.2.1, acc.2.2 + step.2.2)
          else acc
        | none => acc) acc).1) := by
  induction l generalizing acc with
  | nil => exact ⟨rfl, rfl, fun _ _ _ _ h => h⟩
  | cons fid xs ih =>
    simp only [List.foldl_cons]
    cases hget : acc.1.get fid with
    | none =>
      simp only [hget]
      exact ih acc
    | some atom =>
      simp only [hget]
      by_cases hsti : atom.av.sti > cfg.minSTI * 2
      · simp only [if_pos hsti]
        have hstep := spreadFromAtom_props cfg rng acc.1 acc.2.1 fid
        refine ⟨?_, ?_, ?_⟩
        · rw [(ih _).1]
          exact hstep.1
        · rw [(ih _).2.1]
          exact hstep.2.1
        · intro hmin hmax hd0 hd1 hb
          exact (ih _).2.2 hmin hmax hd0 hd1 (hstep.2.2 hmin hmax hd0 hd1 hb)
      · simp only [if_neg hsti]
        exact ih acc

/-- `spreadImportance` keeps the focus set. -/
lemma spreadImportance_focus (cfg : ECANConfig) (rng : ℕ → ℚ) (st : ECANState) (k : ℕ) :
    (spreadImportance cfg rng st k).1.space.attentionalFocus
      = st.space.attentionalFocus := by
  unfold spreadImportance
  exact (spread_outer_props cfg rng _ _).1

/-- `spreadImportance` keeps the stored id list. -/
lemma spreadImportance_ids (cfg : ECANConfig) (rng : ℕ → ℚ) (st : ECANState) (k : ℕ) :
    (spreadImportance cfg rng st k).1.space.atoms.map Atom.id
      = st.space.atoms.map Atom.id := by
  unfold spreadImportance
  exact (spread_outer_props cfg rng _ _).2.1

/-- `spreadImportance` preserves the STI bounds for sane tunables. -/
lemma spreadImportance_bounds (cfg : ECANConfig) (rng : ℕ → ℚ) (st : ECANState) (k : ℕ)
    (hmin : cfg.minSTI ≤ 0) (hmax : 0 ≤ cfg.maxSTI)
    (hd0 : 0 ≤ cfg.diffusionRate) (hd1 : cfg.diffusionRate ≤ 1)
    (hb : STIBounds cfg st.space) :
    STIBounds cfg (spreadImportance cfg rng st k).1.space := by
  unfold spreadImportance
  exact (spread_outer_props cfg rng _ _).2.2 hmin hmax hd0 hd1 hb

end MelonCog
namespace MelonCog

/-- Clearing the focus never touches the stored atoms. -/
lemma clear_fold_atoms (L : List Atom) (sp : AtomSpace) :
    (L.foldl (fun sp atom => sp.removeFromAttentionalFocus atom.id) sp).atoms
      = sp.atoms := by
  induction L generalizing sp with
  | nil => rfl
  | cons x xs ih => exact (ih _).trans rfl

/-- Inserting into the focus never touches the stored atoms. -/
lemma add_fold_atoms (L : List Atom) (sp : AtomSpace) :
    (L.foldl (fun sp atom => (sp.addToAttentionalFocus atom.id).2) sp).atoms
      = sp.atoms := by
  induction L generalizing sp with
  | nil => rfl
  | cons x xs ih =>
    rw [List.foldl_cons, ih]
    unfold AtomSpace.addToAttentionalFocus
    by_cases h : sp.hasAtom x.id <;> simp [h]

/-- The focus-update phase never touches the stored atoms. -/
lemma updateAF_atoms (cfg : ECANConfig) (st : ECANState) :
    (updateAttentionalFocus cfg st).space.atoms = st.space.atoms := by
  unfold updateAttentionalFocus
  rw [add_fold_atoms, clear_fold_atoms]

/-- After the clearing loop, the focus retains exactly the ids that were
present and were not among the removed atoms' ids. -/
lemma clear_fold_focus_mem (L : List Atom) (sp : AtomSpace) (i : ℕ) :
    (i ∈ (L.foldl (fun sp atom => sp.removeFromAttentionalFocus atom.id)
        sp).attentionalFocus)
      ↔ i ∈ sp.attentionalFocus ∧ i ∉ L.map Atom.id := by
  induction L generalizing sp with
  | nil => simp
  | cons x xs ih =>
    rw [List.foldl_cons, ih]
    unfold AtomSpace.removeFromAttentionalFocus
    simp only [List.mem_filter, List.map_cons, List.mem_cons, decide_eq_true_eq]
    constructor
    · rintro ⟨⟨h1, h2⟩, h3⟩
      exact ⟨h1, by simp [h2, h3]⟩
    · rintro ⟨h1, h2⟩
      simp only [not_or] at h2
      exact ⟨⟨h1, h2.1⟩, h2.2⟩

/-- When every focus member is live, the clearing loop empties the focus. -/
lemma clear_fold_focus_nil (sp : AtomSpace) (hlive : sp.FocusLive) :
    (sp.getAttentionalFocus.foldl
      (fun sp atom => sp.removeFromAttentionalFocus atom.id) sp).attentionalFocus
      = [] := by
  rw [List.eq_nil_iff_forall_not_mem]
  intro i hi
  rw [clear_fold_focus_mem] at hi
  obtain ⟨hmem, hnot⟩ := hi
  have hsome := hlive i hmem
  obtain ⟨a, ha⟩ := Option.isSome_iff_exists.mp hsome
  have haid : a.id = i := by simpa using List.find?_some ha
  apply hnot
  apply List.mem_map.mpr
  refine ⟨a, ?_, haid⟩
  unfold AtomSpace.getAttentionalFocus
  exact List.mem_filterMap.mpr ⟨i, hmem, ha⟩

/-- One focus insertion either leaves the focus unchanged or appends the
id. -/
lemma addToFocus_step (sp : AtomSpace) (i : ℕ) :
    (sp.addToAttentionalFocus i).2.attentionalFocus = sp.attentionalFocus ∨
    (sp.addToAttentionalFocus i).2.attentionalFocus = sp.attentionalFocus ++ [i] := by
  unfold AtomSpace.addToAttentionalFocus
  by_cases h : sp.hasAtom i <;> by_cases hm : i ∈ sp.attentionalFocus <;> simp [h, hm]

/-- The insertion loop grows the focus by at most one per atom, and every
resulting member was present before or is one of the inserted ids. -/
lemma add_fold_focus (L : List Atom) (sp : AtomSpace) :
    ((L.foldl (fun sp atom => (sp.addToAttentionalFocus atom.id).2)
        sp).attentionalFocus.length ≤ sp.attentionalFocus.length + L.length) ∧
    (∀ i ∈ (L.foldl (fun sp atom => (sp.addToAttentionalFocus atom.id).2)
        sp).attentionalFocus,
      i ∈ sp.attentionalFocus ∨ i ∈ L.map Atom.id) := by
  induction L generalizing sp with
  | nil => exact ⟨Nat.le_add_right _ _, fun i hi => Or.inl hi⟩
  | cons x xs ih =>
    rw [List.foldl_cons]
    have hih := ih ((sp.addToAttentionalFocus x.id).2)
    rcases addToFocus_step sp x.id with hf | hf
    · refine ⟨?_, ?_⟩
      · have hlen : (sp.addToAttentionalFocus x.id).2.attentionalFocus.length
            = sp.attentionalFocus.length := by rw [hf]
        have h1 := hih.1
        simp only [List.length_cons]
        omega
      · intro i hi
        rcases hih.2 i hi with h1 | h1
        · exact Or.inl (hf ▸ h1)
        · exact Or.inr (by simp [h1])
    · refine ⟨?_, ?_⟩
      · have hlen : (sp.addToAttentionalFocus x.id).2.attentionalFocus.length
            = sp.attentionalFocus.length + 1 := by
          rw [hf]
          simp
        have h1 := hih.1
        simp only [List.length_cons]
        omega
      · intro i hi
        rcases hih.2 i hi with h1 | h1
        · rw [hf] at h1
          rcases List.mem_append.mp h1 with h2 | h2
          · exact Or.inl h2
          · exact Or.inr (by simp [List.mem_singleton.mp h2])
        · exact Or.inr (by simp [h1])

end MelonCog
namespace MelonCog

/-- After the focus-update phase (from a state with live focus members) the
focus holds at most `maxAF` ids, each backed by a stored atom with
`STI ≥ minSTI`. -/
lemma updateAF_post (cfg : ECANConfig) (st : ECANState)
    (hlive : st.space.FocusLive) :
    ((updateAttentionalFocus cfg st).space.attentionalFocus.length ≤ cfg.maxAF) ∧
    (∀ i ∈ (updateAttentionalFocus cfg st).space.attentionalFocus,
      ∃ a ∈ (updateAttentionalFocus cfg st).space.atoms,
        a.id = i ∧ cfg.minSTI ≤ a.av.sti) := by
  unfold updateAttentionalFocus
  set cleared := st.space.getAttentionalFocus.foldl
    (fun sp atom => sp.removeFromAttentionalFocus atom.id) st.space with hcleared
  set sorted := ((cleared.getAllAtoms.filter
      (fun a => decide (a.av.sti ≥ cfg.minSTI))).insertionSort
      (fun a b => b.av.sti ≤ a.av.sti)).take cfg.maxAF with hsorted
  have hclearedfocus : cleared.attentionalFocus = [] :=
    clear_fold_focus_nil st.space hlive
  have hfold := add_fold_focus sorted cleared
  have hsortlen : sorted.length ≤ cfg.maxAF := by
    rw [hsorted, List.length_take]
    exact min_le_left _ _
  constructor
  · refine hfold.1.trans ?_
    rw [hclearedfocus]
    simpa using hsortlen
  · intro i hi
    rcases hfold.2 i hi with h1 | h1
    · rw [hclearedfocus] at h1
      cases h1
    · obtain ⟨a, ha, haid⟩ := List.mem_map.mp h1
      have hasorted : a ∈ (cleared.getAllAtoms.filter
          (fun a => decide (a.av.sti ≥ cfg.minSTI))) := by
        have := List.take_subset cfg.maxAF _ (hsorted ▸ ha)
        exact (List.mem_insertionSort _).mp this
      obtain ⟨hamem, hapred⟩ := List.mem_filter.mp hasorted
      refine ⟨a, ?_, haid, by simpa using hapred⟩
      rw [add_fold_atoms]
      exact hamem

/-- `removeAtom` only removes stored atoms. -/
lemma removeAtom_atoms_subset (s : AtomSpace) (i : ℕ) :
    ∀ a ∈ (s.removeAtom i).2.atoms, a ∈ s.atoms := by
  unfold AtomSpace.removeAtom
  cases h : s.get i with
  | none => exact fun a ha => ha
  | some x => exact fun a ha => (List.mem_filter.mp ha).1

/-- `removeAtom` preserves the focus invariant: the focus only shrinks, and
surviving members keep their backing atoms. -/
lemma removeAtom_P (cfg : ECANConfig) (s : AtomSpace) (i : ℕ)
    (hlen : s.attentionalFocus.length ≤ cfg.maxAF)
    (hmem : ∀ j ∈ s.attentionalFocus,
      ∃ a ∈ s.atoms, a.id = j ∧ cfg.minSTI ≤ a.av.sti) :
    ((s.removeAtom i).2.attentionalFocus.length ≤ cfg.maxAF) ∧
    (∀ j ∈ (s.removeAtom i).2.attentionalFocus,
      ∃ a ∈ (s.removeAtom i).2.atoms, a.id = j ∧ cfg.minSTI ≤ a.av.sti) := by
  unfold AtomSpace.removeAtom
  cases h : s.get i with
  | none => exact ⟨hlen, hmem⟩
  | some x =>
    refine ⟨(List.length_filter_le _ _).trans hlen, ?_⟩
    intro j hj
    obtain ⟨hjmem, hjne⟩ := List.mem_filter.mp hj
    obtain ⟨a, ha, haid, hasti⟩ := hmem j hjmem
    refine ⟨a, ?_, haid, hasti⟩
    apply List.mem_filter.mpr
    refine ⟨ha, ?_⟩
    simp only [decide_eq_true_eq] at hjne ⊢
    rw [haid]
    exact hjne

/-- The forgetting loop preserves the focus invariant for any random
draws. -/
lemma forget_fold_P (cfg : ECANConfig) (rng : ℕ → ℚ) (L : List Atom)
    (st : ECANState) (k : ℕ)
    (hlen : st.space.attentionalFocus.length ≤ cfg.maxAF)
    (hmem : ∀ j ∈ st.space.attentionalFocus,
      ∃ a ∈ st.space.atoms, a.id = j ∧ cfg.minSTI ≤ a.av.sti) :
    ((L.foldl (fun (acc : ECANState × ℕ) atom =>
        if rng acc.2 < 1/10 then
          ({ acc.1 with space := (acc.1.space.removeAtom atom.id).2 }, acc.2 + 1)
        else (acc.1, acc.2 + 1)) (st, k)).1.space.attentionalFocus.length
      ≤ cfg.maxAF) ∧
    (∀ j ∈ (L.foldl (fun (acc : ECANState × ℕ) atom =>
        if rng acc.2 < 1/10 then
          ({ acc.1 with space := (acc.1.space.removeAtom atom.id).2 }, acc.2 + 1)
        else (acc.1, acc.2 + 1)) (st, k)).1.space.attentionalFocus,
      ∃ a ∈ (L.foldl (fun (acc : ECANState × ℕ) atom =>
        if rng acc.2 < 1/10 then
          ({ acc.1 with space := (acc.1.space.removeAtom atom.id).2 }, acc.2 + 1)
        else (acc.1, acc.2 + 1)) (st, k)).1.space.atoms,
        a.id = j ∧ cfg.minSTI ≤ a.av.sti) := by
  induction L generalizing st k with
  | nil => exact ⟨hlen, hmem⟩
  | cons x xs ih =>
    rw [List.foldl_cons]
    by_cases hr : rng k < 1/10
    · simp only [if_pos hr]
      obtain ⟨h1, h2⟩ := removeAtom_P cfg st.space x.id hlen hmem
      exact ih { st with space := (st.space.removeAtom x.id).2 } (k + 1) h1 h2
    · simp only [if_neg hr]
      exact ih st (k + 1) hlen hmem

/-- The forgetting phase preserves the focus invariant. -/
lemma forgetting_P (cfg : ECANConfig) (rng : ℕ → ℚ) (st : ECANState) (k : ℕ)
    (hlen : st.space.attentionalFocus.length ≤ cfg.maxAF)
    (hmem : ∀ j ∈ st.space.attentionalFocus,
      ∃ a ∈ st.space.atoms, a.id = j ∧ cfg.minSTI ≤ a.av.sti) :
    ((applyForgetting cfg rng st k).1.space.attentionalFocus.length ≤ cfg.maxAF) ∧
    (∀ j ∈ (applyForgetting cfg rng st k).1.space.attentionalFocus,
      ∃ a ∈ (applyForgetting cfg rng st k).1.space.atoms,
        a.id = j ∧ cfg.minSTI ≤ a.av.sti) :=
  forget_fold_P cfg rng _ st k hlen hmem

end MelonCog
namespace MelonCog

/-- The statistics phase never touches the store. -/
lemma updateStatistics_space (st : ECANState) :
    (updateStatistics st).space = st.space := rfl

/-- **C2.**  After one full ECAN cycle (any oracle for the random draws),
started from a state whose focus members are all live — an invariant every
operation maintains — the attentional focus holds at most `maxAF` atom ids,
and every focus member is backed by a stored (live) atom whose STI is at
least `minSTI`. -/
theorem C2_focus_invariant (cfg : ECANConfig) (rng : ℕ → ℚ) (st : ECANState)
    (k : ℕ) (hlive : st.space.FocusLive) :
    ((runCycle cfg rng st k).1.space.attentionalFocus.length ≤ cfg.maxAF) ∧
    (∀ i ∈ (runCycle cfg rng st k).1.space.attentionalFocus,
      ∃ a ∈ (runCycle cfg rng st k).1.space.atoms,
        a.id = i ∧ cfg.minSTI ≤ a.av.sti) := by
  have hrc : (runCycle cfg rng st k).1 =
      updateStatistics (applyForgetting cfg rng
        (updateAttentionalFocus cfg
          (spreadImportance cfg rng
            (applySTIDecay cfg (collectRent cfg
              { st with cycle := st.cycle + 1, cyclesRun := st.cyclesRun + 1 })) k).1)
        (spreadImportance cfg rng
          (applySTIDecay cfg (collectRent cfg
            { st with cycle := st.cycle + 1, cyclesRun := st.cyclesRun + 1 })) k).2).1 := rfl
  have hlive0 :
      ({ st with cycle := st.cycle + 1, cyclesRun := st.cyclesRun + 1 } : ECANState).space.FocusLive :=
    hlive
  have hlive1 := focusLive_of_shape _ _
    (collectRent_focus cfg _) (collectRent_ids cfg _) hlive0
  have hlive2 := focusLive_of_shape _ _
    (applySTIDecay_focus cfg _) (applySTIDecay_ids cfg _) hlive1
  have hlive3 := focusLive_of_shape _ _
    (spreadImportance_focus cfg rng _ k) (spreadImportance_ids cfg rng _ k) hlive2
  have hpost := updateAF_post cfg _ hlive3
  have hfinal := forgetting_P cfg rng _
    (spreadImportance cfg rng
      (applySTIDecay cfg (collectRent cfg
        { st with cycle := st.cycle + 1, cyclesRun := st.cyclesRun + 1 })) k).2
    hpost.1 hpost.2
  rw [hrc, updateStatistics_space]
  exact hfinal

end MelonCog
namespace MelonCog

/-- Truth-value-only mutations preserve the STI bounds. -/
lemma stiBounds_updateAtom_tv (cfg : ECANConfig) (s : AtomSpace) (id0 : ℕ)
    (g : Atom → TruthValue) (h : STIBounds cfg s) :
    STIBounds cfg (s.updateAtom id0 (fun a => { a with tv := g a })) := by
  intro b hb
  unfold AtomSpace.updateAtom at hb
  obtain ⟨a, ha, rfl⟩ := List.mem_map.mp hb
  by_cases hid : a.id == id0
  · simpa [hid] using h a ha
  · simpa [hid] using h a ha

/-- `addLink` preserves the STI bounds: an existing link only gets a new
truth value, and a fresh link starts at STI 0. -/
lemma stiBounds_addLink (cfg : ECANConfig) (s : AtomSpace) (ty : String)
    (outg : List ℕ) (tv? : Option TruthValue)
    (hmin : cfg.minSTI ≤ 0) (hmax : 0 ≤ cfg.maxSTI) (h : STIBounds cfg s) :
    STIBounds cfg (s.addLink ty outg tv?).2 := by
  unfold AtomSpace.addLink
  cases hfind : s.getLinkByOutgoing ty outg with
  | some e =>
    simp only [hfind]
    cases tv? with
    | some tv => exact stiBounds_updateAtom_tv cfg s e.id (fun _ => tv) h
    | none => exact h
  | none =>
    simp only [hfind]
    unfold AtomSpace.addAtom
    cases hget : ({ s with nextId := s.nextId + 1 } : AtomSpace).get s.nextId with
    | some e => simpa only [hget] using h
    | none =>
      simp only [hget]
      intro b hb
      rcases List.mem_append.mp hb with hbmem | hbmem
      · exact h b hbmem
      · rw [List.mem_singleton.mp hbmem]
        exact ⟨hmin, hmax⟩

/-- `stimulateAtom` with a nonnegative (or defaulted) amount preserves the
STI bounds: the new STI is clamped at `maxSTI` and can only grow. -/
lemma stimulateAtom_bounds (cfg : ECANConfig) (st : ECANState) (atomId : ℕ)
    (amount : Option ℚ)
    (hmin : cfg.minSTI ≤ 0) (hmax : 0 ≤ cfg.maxSTI)
    (hstim : 0 ≤ cfg.stimulusAmount) (hamt : ∀ x, amount = some x → 0 ≤ x)
    (hb : STIBounds cfg st.space) :
    STIBounds cfg (stimulateAtom cfg st atomId amount).2.space := by
  unfold stimulateAtom
  cases hget : st.space.get atomId with
  | none => exact hb
  | some atom =>
    simp only [hget]
    have hcur := hb atom (List.mem_of_find?_eq_some hget)
    have heff : 0 ≤ (match amount with
        | none => cfg.stimulusAmount
        | some x => if x = 0 then cfg.stimulusAmount else x) := by
      cases amount with
      | none => exact hstim
      | some x =>
        by_cases hx : x = 0
        · simpa [hx] using hstim
        · simpa [hx] using hamt x rfl
    refine stiBounds_updateAtom_withSTI cfg st.space atomId _ hb ⟨?_, min_le_right _ _⟩
    refine le_min ?_ (by linarith)
    linarith [hcur.1]

/-- Hebbian learning only creates a zero-STI link and rewrites truth
values, so it preserves the STI bounds. -/
lemma hebbian_bounds (cfg : ECANConfig) (st : ECANState) (id1 id2 : ℕ)
    (hmin : cfg.minSTI ≤ 0) (hmax : 0 ≤ cfg.maxSTI)
    (hb : STIBounds cfg st.space) :
    STIBounds cfg (performHebbianLearning cfg st id1 id2).2.space := by
  unfold performHebbianLearning
  cases h1 : st.space.get id1 with
  | none => exact hb
  | some a1 =>
    simp only [h1]
    cases h2 : st.space.get id2 with
    | none => exact hb
    | some a2 =>
      simp only [h2]
      cases hfind : findHebbianLink st.space id1 id2 with
      | some l => simp only [hfind]; exact stiBounds_updateAtom_tv cfg st.space l.id _ hb
      | none =>
        simp only [hfind]
        exact stiBounds_updateAtom_tv cfg _ _ _
          (stiBounds_addLink cfg st.space HEBBIAN_LINK [id1, id2] _ hmin hmax hb)

/-- The forgetting loop preserves the STI bounds (it only removes atoms). -/
lemma forget_fold_bounds (cfg : ECANConfig) (rng : ℕ → ℚ) (L : List Atom)
    (st : ECANState) (k : ℕ) (hb : STIBounds cfg st.space) :
    STIBounds cfg ((L.foldl (fun (acc : ECANState × ℕ) atom =>
        if rng acc.2 < 1/10 then
          ({ acc.1 with space := (acc.1.space.removeAtom atom.id).2 }, acc.2 + 1)
        else (acc.1, acc.2 + 1)) (st, k)).1.space) := by
  induction L generalizing st k with
  | nil => exact hb
  | cons x xs ih =>
    rw [List.foldl_cons]
    by_cases hr : rng k < 1/10
    · simp only [if_pos hr]
      exact ih { st with space := (st.space.removeAtom x.id).2 } (k + 1)
        (stiBounds_of_subset cfg st.space _ (removeAtom_atoms_subset st.space x.id) hb)
    · simp only [if_neg hr]
      exact ih st (k + 1) hb

/-- The forgetting phase preserves the STI bounds. -/
lemma forgetting_bounds (cfg : ECANConfig) (rng : ℕ → ℚ) (st : ECANState)
    (k : ℕ) (hb : STIBounds cfg st.space) :
    STIBounds cfg (applyForgetting cfg rng st k).1.space :=
  forget_fold_bounds cfg rng _ st k hb

/-- **C6, amended.**  For sane tunables (`minSTI ≤ 0 ≤ maxSTI`, nonnegative
rent, decay and stimulus, diffusion rate in `[0, 1]`) and a state whose STIs
are in `[minSTI, maxSTI]`: a full ECAN cycle (any random draws), a stimulate
call with a nonnegative (or omitted) amount, and hebbian learning all keep
every atom's STI within `[minSTI, maxSTI]`.  (A negative stimulate amount
escapes the bound — see the counterexample.) -/
theorem C6_sti_bounds_amended (cfg : ECANConfig) (rng : ℕ → ℚ) (st : ECANState)
    (k : ℕ)
    (hmin : cfg.minSTI ≤ 0) (hmax : 0 ≤ cfg.maxSTI)
    (hrent : 0 ≤ cfg.rentAmount) (hdecay : 0 ≤ cfg.decayRate)
    (hd0 : 0 ≤ cfg.diffusionRate) (hd1 : cfg.diffusionRate ≤ 1)
    (hstim : 0 ≤ cfg.stimulusAmount)
    (hb : STIBounds cfg st.space) :
    STIBounds cfg (runCycle cfg rng st k).1.space ∧
    (∀ atomId amount, (∀ x, amount = some x → 0 ≤ x) →
      STIBounds cfg (stimulateAtom cfg st atomId amount).2.space) ∧
    (∀ id1 id2, STIBounds cfg (performHebbianLearning cfg st id1 id2).2.space) := by
  refine ⟨?_, fun atomId amount hamt =>
      stimulateAtom_bounds cfg st atomId amount hmin hmax hstim hamt hb,
    fun id1 id2 => hebbian_bounds cfg st id1 id2 hmin hmax hb⟩
  have hrc : (runCycle cfg rng st k).1 =
      updateStatistics (applyForgetting cfg rng
        (updateAttentionalFocus cfg
          (spreadImportance cfg rng
            (applySTIDecay cfg (collectRent cfg
              { st with cycle := st.cycle + 1, cyclesRun := st.cyclesRun + 1 })) k).1)
        (spreadImportance cfg rng
          (applySTIDecay cfg (collectRent cfg
            { st with cycle := st.cycle + 1, cyclesRun := st.cyclesRun + 1 })) k).2).1 := rfl
  rw [hrc, updateStatistics_space]
  have hb1 := collectRent_bounds cfg
    { st with cycle := st.cycle + 1, cyclesRun := st.cyclesRun + 1 }
    (le_trans hmin hmax) hrent hb
  have hb2 := applySTIDecay_bounds cfg _ hmin hmax hdecay hb1
  have hb3 := spreadImportance_bounds cfg rng _ k hmin hmax hd0 hd1 hb2
  have hb4 : STIBounds cfg (updateAttentionalFocus cfg
      (spreadImportance cfg rng
        (applySTIDecay cfg (collectRent cfg
          { st with cycle := st.cycle + 1, cyclesRun := st.cyclesRun + 1 })) k).1).space := by
    intro a ha
    rw [updateAF_atoms] at ha
    exact hb3 a ha
  exact forgetting_bounds cfg rng _ _ hb4

/-- Witness for C2 at a concrete input: one default cycle over the one-atom
store with the constant-zero oracle. -/
theorem C2_focus_invariant_witness :
    ((runCycle ECANConfig.default (fun _ => 0) oneAtomState
        0).1.space.attentionalFocus.length ≤ ECANConfig.default.maxAF) ∧
    (∀ i ∈ (runCycle ECANConfig.default (fun _ => 0) oneAtomState
        0).1.space.attentionalFocus,
      ∃ a ∈ (runCycle ECANConfig.default (fun _ => 0) oneAtomState
        0).1.space.atoms,
        a.id = i ∧ ECANConfig.default.minSTI ≤ a.av.sti) :=
  C2_focus_invariant ECANConfig.default (fun _ => 0) oneAtomState 0 (by decide)

/-- Witness for the amended C6 at a concrete input: the one-atom store under
the default configuration with the constant-one oracle. -/
theorem C6_sti_bounds_witness :
    STIBounds ECANConfig.default
      (runCycle ECANConfig.default (fun _ => 1) oneAtomState 0).1.space ∧
    (∀ atomId amount, (∀ x, amount = some x → 0 ≤ x) →
      STIBounds ECANConfig.default
        (stimulateAtom ECANConfig.default oneAtomState atomId amount).2.space) ∧
    (∀ id1 id2, STIBounds ECANConfig.default
      (performHebbianLearning ECANConfig.default oneAtomState id1 id2).2.space) :=
  C6_sti_bounds_amended ECANConfig.default (fun _ => 1) oneAtomState 0
    (by decide) (by decide) (by decide) (by decide) (by decide) (by decide)
    (by decide) (by decide)

end MelonCog
